import Mathlib

/-!
# zlog: the rotating file writer

A shallow embedding of `zWriter.Write`, `zWriter.openFile` and `zWriter.rotate`
(`zlog/zlog.go`) over an explicit model of the parts of the Go runtime the
writer calls: the clock (`time.Now`, `Time.Format`, `Time.Unix`), path joining
(`filepath.Join`) and the file system (`os.Stat`, `os.MkdirAll`, `os.OpenFile`,
`os.Rename`, `File.Stat`, `File.Close`, `File.Write`).

The mutex `mu` is not part of the state: a call of `Write` is one atomic
transition of the model, and a sequence of calls is a list.
-/

namespace Zlog

/-! ## The clock -/

/-- A reading of `time.Now()`: seconds since the Unix epoch, rendered in UTC. -/
abbrev Time := Nat

/-- A calendar date. -/
structure Date where
  year : Nat
  month : Nat
  day : Nat
deriving DecidableEq, Repr

/-- Gregorian leap years. -/
def isLeap (y : Nat) : Bool := (y % 4 == 0 && y % 100 != 0) || y % 400 == 0

/-- Number of days of month `m` of year `y`. -/
def daysIn (y m : Nat) : Nat :=
  if m = 2 then (if isLeap y then 29 else 28)
  else if m = 4 ∨ m = 6 ∨ m = 9 ∨ m = 11 then 30 else 31

/-- The date that is `d` days after the first day of month `m` of year `y`,
found by stepping over whole months. -/
def civilFrom : Nat → Nat → Nat → Nat → Date
  | 0, y, m, d => ⟨y, m, d + 1⟩
  | f + 1, y, m, d =>
    if d < daysIn y m then ⟨y, m, d + 1⟩
    else if m < 12 then civilFrom f y (m + 1) (d - daysIn y m)
    else civilFrom f (y + 1) 1 (d - daysIn y m)

/-- The date of day number `n` counted from 1970-01-01. -/
def civil (n : Nat) : Date := civilFrom (n + 1) 1970 1 n

/-- The date of a clock reading. -/
def dateOf (t : Time) : Date := civil (t / 86400)

/-- Decimal digits of `n`, most significant first; the first argument bounds
the number of digits. -/
def decDigits : Nat → Nat → List Char
  | 0, _ => []
  | f + 1, n =>
    if n < 10 then [Nat.digitChar n] else decDigits f (n / 10) ++ [Nat.digitChar (n % 10)]

/-- The decimal rendering of `n`, as `%d` prints it. -/
def itoa (n : Nat) : List Char := decDigits (n + 1) n

/-- The decimal rendering of `n`, padded with zeros to at least `w` digits. -/
def pad (w n : Nat) : List Char := List.replicate (w - (itoa n).length) '0' ++ itoa n

/-- The layout scanner of `Time.Format`, for layouts made of the reference
elements `2006`, `01`, `02`, `15`, `04`, `05` and of literal text. -/
def formatAux (t : Time) : List Char → List Char
  | '2' :: '0' :: '0' :: '6' :: r => pad 4 (dateOf t).year ++ formatAux t r
  | '0' :: '1' :: r => pad 2 (dateOf t).month ++ formatAux t r
  | '0' :: '2' :: r => pad 2 (dateOf t).day ++ formatAux t r
  | '1' :: '5' :: r => pad 2 (t % 86400 / 3600) ++ formatAux t r
  | '0' :: '4' :: r => pad 2 (t % 3600 / 60) ++ formatAux t r
  | '0' :: '5' :: r => pad 2 (t % 60) ++ formatAux t r
  | c :: r => c :: formatAux t r
  | [] => []

/-- The method `Time.Format(layout)`. -/
def Format (layout : String) (t : Time) : String := String.mk (formatAux t layout.toList)

/-- The method `Time.Unix()`. -/
def Unix (t : Time) : Nat := t

/-- The readings of `time.Now()` that one call of `Write` can make, in source
order of the statements that read it. -/
structure Clock where
  /-- Line 52: the reading formatted into `dateDir`. -/
  dir : Time
  /-- Line 59: the reading formatted into `fName`. -/
  stem : Time
  /-- Line 83: the reading `rotate` turns into the suffix. -/
  rot : Time
  /-- Line 76: the reading `openFile` formats into `fileName`. -/
  opn : Time

/-- A call that sees the same instant at every reading. -/
def Clock.const (t : Time) : Clock := ⟨t, t, t, t⟩

/-! ## Paths -/

/-- A cleaned path: its list of name components, outermost first. -/
abbrev Path := List String

/-- The components of one argument of `filepath.Join`. -/
def splitSlash (s : String) : List String := (s.toList.splitOn '/').map String.mk

/-- One step of `filepath.Clean` over a stack of components (innermost first):
empty and `.` components vanish, `..` removes the component before it. -/
def cleanPush (stack : List String) (c : String) : List String :=
  if c = "" ∨ c = "." then stack
  else if c = ".." then
    match stack with
    | [] => [c]
    | top :: rest => if top = ".." then c :: stack else rest
  else c :: stack

/-- The function `filepath.Join`, for paths below one fixed origin: the
arguments are split at the separators and cleaned, and a leading separator is
not told apart from none. -/
def Join (elems : List String) : Path :=
  (elems.foldl (fun st e => (splitSlash e).foldl cleanPush st) []).reverse

/-! ## The file system and the open files -/

/-- An inode number. -/
abbrev Ino := Nat

/-- File content. -/
abbrev Bytes := List UInt8

/-- The errors a call can return. -/
inductive Err
  /-- The value `os.ErrInvalid`, returned by the methods of a nil `*os.File`. -/
  | invalid
  /-- The value `os.ErrClosed`, returned by the methods of a closed file. -/
  | closed
  /-- An error reported by the operating system. -/
  | sys (errno : Nat)
deriving DecidableEq, Repr

/-- The library calls the writer makes, as recorded in the call log. -/
inductive Call
  | stat (p : Path)
  | mkdirAll (p : Path)
  | fstat (f : Option Nat)
  | close (f : Option Nat)
  | rename (old new : Path)
  | openFile (p : Path)
  | write (f : Option Nat) (b : Bytes)
deriving DecidableEq, Repr

/-- The state outside the writer: directories, directory entries of regular
files, file contents, the table of open `os.File` objects and the log of the
calls made so far. -/
structure OS where
  /-- The directories that exist. -/
  dirs : List Path
  /-- The regular files that exist, each with its inode. -/
  names : List (Path × Ino)
  /-- The content of every inode. -/
  data : Ino → Bytes
  /-- The `os.File` objects that are open, each with the inode it writes to. -/
  fds : List (Nat × Ino)
  /-- The next unused `os.File` identity. -/
  nextFd : Nat
  /-- The calls made so far, oldest first. -/
  log : List Call

/-- Failures with a cause outside the model (permissions, a full disk, an I/O
error), chosen per call of `Write`. -/
structure Faults where
  /-- The call `os.Stat` fails with an error other than "does not exist". -/
  stat : Bool
  /-- The call `os.MkdirAll` fails. -/
  mkdirAll : Bool
  /-- The call `File.Stat` fails. -/
  fstat : Bool
  /-- The call `os.Rename` fails. -/
  rename : Bool
  /-- The call `os.OpenFile` fails. -/
  openFile : Bool
  /-- The call `File.Write` stops after this many bytes with this error. -/
  write : Option (Nat × Err)

/-- No failure with a cause outside the model. -/
def Faults.none : Faults := ⟨false, false, false, false, false, Option.none⟩

/-- The path names a directory; the empty path is the origin. -/
def OS.isDir (os : OS) (p : Path) : Bool := p = [] ∨ p ∈ os.dirs

/-- The path names a regular file. -/
def OS.isFile (os : OS) (p : Path) : Bool := (os.names.lookup p).isSome

/-- The inode an `*os.File` writes to: none for nil and for a closed file. -/
def OS.file (os : OS) (f : Option Nat) : Option Ino := f.bind (fun h => os.fds.lookup h)

/-- The size of the regular file at a path, when there is one. -/
def OS.sizeAt (os : OS) (p : Path) : Option Nat :=
  (os.names.lookup p).map (fun i => (os.data i).length)

/-- The content of the regular file at a path, when there is one. -/
def OS.contentAt (os : OS) (p : Path) : Option Bytes :=
  (os.names.lookup p).map os.data

/-- An inode number that no directory entry and no open file refers to. -/
def OS.freshIno (os : OS) : Ino :=
  (os.names.map Prod.snd ++ os.fds.map Prod.snd).foldr max 0 + 1

/-- Append a call to the log. -/
def OS.record (os : OS) (c : Call) : OS := { os with log := os.log ++ [c] }

/-- What `os.IsNotExist` can tell about the error of `os.Stat`. -/
inductive StatRes
  | found
  | notExist
  | otherError
deriving DecidableEq, Repr

/-- The call `os.Stat(p)`, as far as `os.IsNotExist` tells its results apart:
a path below a regular file fails with "not a directory", which is not "does
not exist". -/
def osStat (fl : Faults) (os : OS) (p : Path) : OS × StatRes :=
  (os.record (.stat p),
    if fl.stat then .otherError
    else if os.isDir p ∨ os.isFile p then .found
    else if p.inits.any (fun q => os.isFile q) then .otherError
    else .notExist)

/-- The call `os.MkdirAll(p, 0666)`: creates `p` and its missing ancestors,
and fails when `p` or an ancestor is a regular file. The flag tells success.
Permission bits are not part of the state; a failure they cause is a fault. -/
def osMkdirAll (fl : Faults) (os : OS) (p : Path) : OS × Bool :=
  if fl.mkdirAll ∨ (p.inits.any fun q => os.isFile q) then (os.record (.mkdirAll p), false)
  else ({ os.record (.mkdirAll p) with dirs := p.inits ++ os.dirs }, true)

/-- The call `os.OpenFile(p, O_CREATE|O_WRONLY|O_APPEND, 0666)`: opens the
regular file at `p`, creating it empty when its directory exists and it does
not. The result is the new `*os.File`, nil on failure. -/
def osOpenFile (fl : Faults) (os : OS) (p : Path) : OS × Option Nat :=
  if fl.openFile ∨ os.isDir p then (os.record (.openFile p), Option.none)
  else
    match os.names.lookup p with
    | some i =>
      ({ os.record (.openFile p) with
          fds := (os.nextFd, i) :: os.fds, nextFd := os.nextFd + 1 }, some os.nextFd)
    | Option.none =>
      if os.isDir p.dropLast then
        ({ os.record (.openFile p) with
            names := (p, os.freshIno) :: os.names
            data := Function.update os.data os.freshIno []
            fds := (os.nextFd, os.freshIno) :: os.fds
            nextFd := os.nextFd + 1 }, some os.nextFd)
      else (os.record (.openFile p), Option.none)

/-- The regular file at `old` can be renamed to `new`: `old` is a regular
file, `new` is not a directory and the directory of `new` exists. -/
def OS.canRename (os : OS) (old new : Path) : Bool :=
  os.isFile old ∧ ¬ os.isDir new ∧ os.isDir new.dropLast

/-- The call `os.Rename(old, new)` on a regular file: an existing file at
`new` is replaced. Renaming a directory is outside the model and fails. The
flag tells success. -/
def osRename (fl : Faults) (os : OS) (old new : Path) : OS × Bool :=
  if fl.rename ∨ ¬ os.canRename old new then (os.record (.rename old new), false)
  else
    match os.names.lookup old with
    | Option.none => (os.record (.rename old new), false)
    | some i =>
      if old = new then (os.record (.rename old new), true)
      else
        ({ os.record (.rename old new) with
            names := (new, i) :: os.names.filter (fun e => e.1 ≠ old ∧ e.1 ≠ new) }, true)

/-- The method `File.Stat()`: the size of the open file, or failure. -/
def osFstat (fl : Faults) (os : OS) (f : Option Nat) : OS × Option Nat :=
  (os.record (.fstat f),
    if fl.fstat then Option.none else (os.file f).map (fun i => (os.data i).length))

/-- The method `File.Close()`. -/
def osClose (os : OS) (f : Option Nat) : OS :=
  match f with
  | Option.none => os.record (.close f)
  | some h => { os.record (.close f) with fds := os.fds.filter (fun e => e.1 ≠ h) }

/-- The method `File.Write(p)` on a file opened for appending: the number of
bytes written and the error. -/
def osWrite (fl : Faults) (os : OS) (f : Option Nat) (p : Bytes) : OS × Nat × Option Err :=
  match f with
  | Option.none => (os.record (.write f p), 0, some .invalid)
  | some h =>
    match os.fds.lookup h with
    | Option.none => (os.record (.write f p), 0, some .closed)
    | some i =>
      match fl.write with
      | some (k, e) =>
        ({ os.record (.write f p) with data := Function.update os.data i (os.data i ++ p.take k) },
          (p.take k).length, some e)
      | Option.none =>
        ({ os.record (.write f p) with data := Function.update os.data i (os.data i ++ p) },
          p.length, Option.none)

/-! ## The writer -/

/-- The struct `zWriter`, without its mutex. -/
structure zWriter where
  baseDir : String
  dateDir : String
  dnFormat : String
  fileName : String
  fnFormat : String
  ext : String
  maxBytes : Int
  /-- The field `fd *os.File`: none is nil. -/
  fd : Option Nat

/-- The writer that `New` builds. -/
def New : zWriter :=
  { baseDir := "./zlog"
    dateDir := ""
    dnFormat := "200601"
    fileName := ""
    fnFormat := "02"
    ext := ".log"
    maxBytes := 1024
    fd := Option.none }

/-- A writer together with the state outside it. -/
structure State where
  w : zWriter
  os : OS

/-- The method `zWriter.openFile`. -/
def openFile (clk : Clock) (fl : Faults) (s : State) : State :=
  let fileName := Format s.w.fnFormat clk.opn
  let fPath := Join [s.w.baseDir, s.w.dateDir, fileName ++ s.w.ext]
  let r := osOpenFile fl s.os fPath
  { w := { s.w with fileName := fileName, fd := r.2 }, os := r.1 }

/-- The path `rotate` renames from. -/
def oldPath (w : zWriter) : Path := Join [w.baseDir, w.dateDir, w.fileName ++ w.ext]

/-- The path `rotate` renames to. -/
def newPath (w : zWriter) (t : Time) : Path :=
  Join [w.baseDir, w.dateDir, w.fileName ++ "_" ++ String.mk (itoa (Unix t)) ++ w.ext]

/-- The method `zWriter.rotate`. -/
def rotate (clk : Clock) (fl : Faults) (s : State) : State :=
  { s with os := (osRename fl s.os (oldPath s.w) (newPath s.w clk.rot)).1 }

/-- The statements of `Write` before the final `w.fd.Write(p)`. -/
def prepare (clk : Clock) (fl : Faults) (s : State) : State :=
  let w := { s.w with dateDir := Format s.w.dnFormat clk.dir }
  let dirPath := Join [w.baseDir, w.dateDir]
  let st := osStat fl s.os dirPath
  if st.2 = .notExist then
    openFile clk fl ⟨w, (osMkdirAll fl st.1 dirPath).1⟩
  else
    let fi := osFstat fl st.1 w.fd
    match fi.2 with
    | some size =>
      let fName := Format w.fnFormat clk.stem
      if fName ≠ w.fileName then
        openFile clk fl ⟨w, osClose fi.1 w.fd⟩
      else if (size : Int) > w.maxBytes then
        openFile clk fl (rotate clk fl ⟨w, osClose fi.1 w.fd⟩)
      else ⟨w, fi.1⟩
    | Option.none => openFile clk fl ⟨w, fi.1⟩

/-- The method `zWriter.Write`: the state after the call, the number of bytes
written and the error. -/
def Write (clk : Clock) (fl : Faults) (s : State) (p : Bytes) : State × Nat × Option Err :=
  let s1 := prepare clk fl s
  let r := osWrite fl s1.os s1.w.fd p
  (⟨s1.w, r.1⟩, r.2)

/-- A sequence of calls of `Write` made without faults, each at one instant. -/
def writes (s : State) : List (Time × Bytes) → State
  | [] => s
  | (t, p) :: rest => writes (Write (Clock.const t) Faults.none s p).1 rest

/-- The readings of a call, in the order the statements make them. -/
def Clock.readings (c : Clock) : List Time := [c.dir, c.stem, c.rot, c.opn]

/-- All readings of the clock that a sequence of calls makes, in order. -/
def allReadings (calls : List (Clock × Bytes)) : List Time :=
  calls.foldr (fun c acc => c.1.readings ++ acc) []

/-- A sequence of calls of `Write` made without faults, each with its own
readings of the clock. -/
def writesAt (s : State) : List (Clock × Bytes) → State
  | [] => s
  | (c, p) :: rest => writesAt (Write c Faults.none s p).1 rest

/-- The total size of the regular files directly inside directory `d`. -/
def OS.totalIn (os : OS) (d : Path) : Nat :=
  ((os.names.filter (fun e => e.1.dropLast = d)).map (fun e => (os.data e.2).length)).sum

/-- A disk with nothing on it and no open file. -/
def OS.empty : OS :=
  { dirs := [], names := [], data := fun _ => [], fds := [], nextFd := 0, log := [] }

/-! ## Names for the parts of a call -/

/-- The file a call at time `t` is meant to write into. -/
def target (w : zWriter) (t : Time) : Path :=
  Join [w.baseDir, Format w.dnFormat t, Format w.fnFormat t ++ w.ext]

/-- The path `openFile` opens from state `s`. -/
def openPath (clk : Clock) (s : State) : Path :=
  Join [s.w.baseDir, s.w.dateDir, Format s.w.fnFormat clk.opn ++ s.w.ext]

/-- The writer after line 52. -/
def dated (clk : Clock) (w : zWriter) : zWriter := { w with dateDir := Format w.dnFormat clk.dir }

/-- The directory path of line 53. -/
def dirPath (clk : Clock) (w : zWriter) : Path := Join [w.baseDir, Format w.dnFormat clk.dir]

/-- The five ways through the body of `Write`. -/
inductive Branch
  /-- Lines 55-56: the directory does not exist. -/
  | newDir
  /-- Line 69: `w.fd.Stat()` fails. -/
  | statFail
  /-- Lines 61-62: the stem differs from `fileName`. -/
  | rollover
  /-- Lines 64-66: the open file is larger than `maxBytes`. -/
  | overflow
  /-- None of the above: the handle is kept. -/
  | keep
deriving DecidableEq, Repr

/-- The way a call takes through the body of `Write`. -/
def branch (clk : Clock) (fl : Faults) (s : State) : Branch :=
  if (osStat fl s.os (dirPath clk s.w)).2 = .notExist then .newDir
  else
    match (osFstat fl s.os s.w.fd).2 with
    | none => .statFail
    | some size =>
      if Format s.w.fnFormat clk.stem ≠ s.w.fileName then .rollover
      else if (size : Int) > s.w.maxBytes then .overflow
      else .keep

/-- The state outside the writer after lines 54 and 58. -/
def statted (clk : Clock) (s : State) : OS :=
  (s.os.record (.stat (dirPath clk s.w))).record (.fstat s.w.fd)


/-! ## Vocabulary of the proofs -/

/-- The day after a date. -/
def Date.next (d : Date) : Date :=
  if d.day < daysIn d.year d.month then { d with day := d.day + 1 }
  else if d.month < 12 then { d with month := d.month + 1, day := 1 }
  else { year := d.year + 1, month := 1, day := 1 }

/-- A date of the calendar, from 1970 on. -/
def Date.Valid (d : Date) : Prop :=
  1970 ≤ d.year ∧ 1 ≤ d.month ∧ d.month ≤ 12 ∧ 1 ≤ d.day ∧ d.day ≤ daysIn d.year d.month

/-- A number that orders the months. -/
def Date.monthKey (d : Date) : Nat := d.year * 12 + d.month

/-- A number that orders the days. -/
def Date.dayKey (d : Date) : Nat := (d.year * 12 + d.month) * 32 + d.day

/-- The number a list of decimal digits denotes. -/
def atoi (cs : List Char) : Nat := cs.foldl (fun a c => 10 * a + (c.toNat - 48)) 0

/-- A name that `filepath.Join` keeps as one component: it has no separator
and is none of the empty name, `.` and `..`. -/
def Plain (s : String) : Prop := '/' ∉ s.toList ∧ s ≠ "" ∧ s ≠ "." ∧ s ≠ ".."

/-- The writer has the layout `New` configures, below base directory `b` and
with threshold `m`. -/
def Layout (b : String) (m : Int) (w : zWriter) : Prop :=
  w.baseDir = b ∧ w.dnFormat = "200601" ∧ w.fnFormat = "02" ∧ w.ext = ".log" ∧ w.maxBytes = m

/-- The directory of the month of `t`. -/
def dayDir (b : String) (t : Time) : Path := Join [b] ++ [Format "200601" t]

/-- The file of the day of `t`. -/
def dayFile (b : String) (t : Time) : Path :=
  Join [b] ++ [Format "200601" t, Format "02" t ++ ".log"]

/-- The file of the day of `t` as rotated at time `u`. -/
def rotFile (b : String) (t u : Time) : Path :=
  Join [b] ++ [Format "200601" t, Format "02" t ++ "_" ++ String.mk (itoa (Unix u)) ++ ".log"]

/-- The name of a rotated file: a stem, an underscore, a decimal number and
the extension. -/
def RotatedName (ext n : String) : Prop :=
  ∃ (stem : String) (u : Nat), n = stem ++ "_" ++ String.mk (itoa u) ++ ext

/-- The disk holds only what calls up to time `cur` with payloads of at most
`L` bytes have left below base directory `b`: every directory is an ancestor
of the base or a month directory, every file is a day file or a rotated file
of a past instant, within the size bounds, and no two paths share a file. -/
def Disk (b : String) (m : Int) (cur : Time) (L : Nat) (os : OS) : Prop :=
  (∀ d ∈ os.dirs, d <+: Join [b] ∨ ∃ s, s ≤ cur ∧ d = dayDir b s)
  ∧ (∀ q i, os.names.lookup q = some i →
      ∃ s, s ≤ cur ∧ dayDir b s ∈ os.dirs ∧ ((os.data i).length : Int) ≤ m + L
        ∧ (q = dayFile b s ∨ ∃ u, q = rotFile b s u ∧ m < ((os.data i).length : Int)))
  ∧ (∀ q q' i, os.names.lookup q = some i → os.names.lookup q' = some i → q = q')

/-- The writer is as a call at time `cur` leaves it: its handle is open on the
day file of `cur`. -/
def Active (b : String) (m : Int) (cur : Time) (s : State) : Prop :=
  Layout b m s.w ∧ s.w.dateDir = Format "200601" cur ∧ s.w.fileName = Format "02" cur
  ∧ dayDir b cur ∈ s.os.dirs
  ∧ ∃ h i, s.w.fd = some h ∧ s.os.fds.lookup h = some i
      ∧ s.os.names.lookup (dayFile b cur) = some i

/-- The length of the longest payload of a list of calls. -/
def maxLen {α : Type} (calls : List (α × Bytes)) : Nat :=
  (calls.map (fun c => c.2.length)).foldr max 0

/-- The writer is active at `cur` and the disk holds one file, the day file of
`cur`, with inode `f` and content `c`. -/
def Single (b : String) (m : Int) (cur : Time) (L : Nat) (s : State) (f : Ino) (c : Bytes) :
    Prop :=
  Active b m cur s ∧ Disk b m cur L s.os ∧ s.os.names = [(dayFile b cur, f)] ∧ s.os.data f = c

/-! ## Concrete runs -/

/-- A log record of 1025 bytes, one more than the threshold `New` sets. -/
def line (c : UInt8) : Bytes := List.replicate 1025 c

/-- The instant 2023-11-14 22:13:20 UTC. -/
def nov14 : Time := 1700000000

/-- The instant 2023-11-15 22:13:20 UTC. -/
def nov15 : Time := 1700086400

/-- The instant 2024-01-15 00:00:00 UTC. -/
def jan15 : Time := 1705276800

/-- The instant 2024-01-31 00:00:00 UTC. -/
def jan31 : Time := 1706659200

/-- The instant 2024-02-01 00:00:00 UTC. -/
def feb01 : Time := 1706745600

/-- The instant 2024-02-15 00:00:00 UTC. -/
def feb15 : Time := 1707955200

/-- A fresh writer on an empty disk. -/
def start : State := ⟨New, OS.empty⟩

/-- Three long records written within one second. -/
def burst : List (Time × Bytes) := [(nov14, line 1), (nov14, line 2), (nov14, line 3)]

/-- The burst as calls that each read the clock as one instant. -/
def burstAt : List (Clock × Bytes) :=
  [(Clock.const nov14, line 1), (Clock.const nov14, line 2), (Clock.const nov14, line 3)]

/-- The state after the first two records of the burst. -/
def afterTwo : State := writes start [(nov14, line 1), (nov14, line 2)]

/-- The state after one long record. -/
def afterLong : State := writes start [(nov14, line 1)]

/-- The state after one short record on 2023-11-14. -/
def afterShort : State := writes start [(nov14, [1, 2, 3])]

/-- The state after one short record on 2024-01-31. -/
def afterJan31 : State := writes start [(jan31, [1, 2, 3])]

/-- A fresh writer on a disk where the directory of February 2024 exists. -/
def startFeb : State := ⟨New, { OS.empty with dirs := [["zlog"], ["zlog", "202402"]] }⟩

/-- The state after one short record on 2024-01-15, on that disk. -/
def afterJan15 : State := writes startFeb [(jan15, [1, 2, 3])]

/-- The rename of the call fails, nothing else does. -/
def renameFails : Faults := { Faults.none with rename := true }

/-- The state after one short record on 2023-11-14, after another process has
made a directory at the path of the file of 2023-11-15. -/
def blockedNov15 : State :=
  ⟨afterShort.w,
    { afterShort.os with dirs := ["zlog", "202311", "15.log"] :: afterShort.os.dirs }⟩

/-- The instant 2024-01-01 00:00:00 UTC. -/
def jan01 : Time := 1704067200

/-- The instant 2024-01-31 23:59:59 UTC. -/
def jan31Last : Time := 1706745599

/-- Three calls at instants that do not decrease; the third reads the clock
in the last second of January for the directory and in the first second of
February for the stem and the file name. -/
def straddle : List (Clock × Bytes) :=
  [(Clock.const jan01, line 1), (Clock.const jan31, [1, 2, 3]),
   (⟨jan31Last, feb01, feb01, feb01⟩, line 3)]

/-- A fresh writer with threshold 10. -/
def startTen : State := ⟨{ New with maxBytes := 10 }, OS.empty⟩


/-! ## Basic facts about the calls -/

@[simp] theorem record_dirs (os : OS) (c : Call) : (os.record c).dirs = os.dirs := rfl
@[simp] theorem record_names (os : OS) (c : Call) : (os.record c).names = os.names := rfl
@[simp] theorem record_data (os : OS) (c : Call) : (os.record c).data = os.data := rfl
@[simp] theorem record_fds (os : OS) (c : Call) : (os.record c).fds = os.fds := rfl
@[simp] theorem record_nextFd (os : OS) (c : Call) : (os.record c).nextFd = os.nextFd := rfl
@[simp] theorem record_log (os : OS) (c : Call) : (os.record c).log = os.log ++ [c] := rfl

theorem osWrite_snd (fl : Faults) (os : OS) (f : Option Nat) (p : Bytes) :
    ((osWrite fl os f p).2.2 ≠ none ↔ (os.file f = none ∨ fl.write.isSome)) := by
  unfold osWrite OS.file
  cases f with
  | none => simp
  | some h =>
    cases hl : os.fds.lookup h with
    | none => simp [hl]
    | some i =>
      cases hw : fl.write with
      | none => simp [hl, hw]
      | some ke => simp [hl, hw]

theorem lookup_cons_self {α β : Type} [BEq α] [LawfulBEq α] (a : α) (b : β)
    (l : List (α × β)) : ((a, b) :: l).lookup a = some b := by
  simp [List.lookup]

theorem lookup_cons_ne {α β : Type} [BEq α] [LawfulBEq α] (a q : α) (b : β)
    (l : List (α × β)) (h : q ≠ a) : ((a, b) :: l).lookup q = l.lookup q := by
  have : (q == a) = false := by simpa using h
  simp [List.lookup, this]

theorem osOpenFile_spec (fl : Faults) (os : OS) (P : Path) :
    (osOpenFile fl os P).1.log = os.log ++ [.openFile P]
    ∧ (osOpenFile fl os P).1.dirs = os.dirs
    ∧ (((osOpenFile fl os P).2 = none ∧ (osOpenFile fl os P).1.names = os.names
          ∧ (osOpenFile fl os P).1.data = os.data ∧ (osOpenFile fl os P).1.fds = os.fds
          ∧ (osOpenFile fl os P).1.nextFd = os.nextFd
          ∧ (fl.openFile = true ∨ os.isDir P = true
              ∨ (os.names.lookup P = none ∧ os.isDir P.dropLast = false)))
      ∨ (∃ i, os.names.lookup P = some i ∧ (osOpenFile fl os P).2 = some os.nextFd
          ∧ (osOpenFile fl os P).1.names = os.names
          ∧ (osOpenFile fl os P).1.data = os.data
          ∧ (osOpenFile fl os P).1.fds = (os.nextFd, i) :: os.fds
          ∧ (osOpenFile fl os P).1.nextFd = os.nextFd + 1)
      ∨ (os.names.lookup P = none ∧ (osOpenFile fl os P).2 = some os.nextFd
          ∧ (osOpenFile fl os P).1.names = (P, os.freshIno) :: os.names
          ∧ (osOpenFile fl os P).1.data = Function.update os.data os.freshIno []
          ∧ (osOpenFile fl os P).1.fds = (os.nextFd, os.freshIno) :: os.fds
          ∧ (osOpenFile fl os P).1.nextFd = os.nextFd + 1)) := by
  unfold osOpenFile
  by_cases h1 : fl.openFile = true ∨ os.isDir P = true
  · rw [if_pos h1]
    refine ⟨rfl, rfl, Or.inl ⟨rfl, rfl, rfl, rfl, rfl, ?_⟩⟩
    rcases h1 with h | h
    · exact Or.inl h
    · exact Or.inr (Or.inl h)
  · rw [if_neg h1]
    cases hl : os.names.lookup P with
    | some i => exact ⟨rfl, rfl, Or.inr (Or.inl ⟨i, rfl, rfl, rfl, rfl, rfl, rfl⟩)⟩
    | none =>
      by_cases h2 : os.isDir P.dropLast = true
      · dsimp only
        rw [if_pos h2]
        exact ⟨rfl, rfl, Or.inr (Or.inr ⟨rfl, rfl, rfl, rfl, rfl, rfl⟩)⟩
      · dsimp only
        rw [if_neg h2]
        refine ⟨rfl, rfl, Or.inl ⟨rfl, rfl, rfl, rfl, rfl, Or.inr (Or.inr ⟨rfl, ?_⟩)⟩⟩
        simpa using h2

theorem osWrite_spec (fl : Faults) (os : OS) (f : Option Nat) (p : Bytes) :
    (osWrite fl os f p).1.log = os.log ++ [.write f p]
    ∧ (osWrite fl os f p).1.dirs = os.dirs
    ∧ (osWrite fl os f p).1.names = os.names
    ∧ (osWrite fl os f p).1.fds = os.fds
    ∧ (osWrite fl os f p).1.nextFd = os.nextFd
    ∧ ((os.file f = none ∧ (osWrite fl os f p).1.data = os.data
          ∧ (osWrite fl os f p).2.1 = 0 ∧ (osWrite fl os f p).2.2 ≠ none
          ∧ ((osWrite fl os f p).2.2 = some Err.invalid ∨ (osWrite fl os f p).2.2 = some Err.closed)
          ∧ (f = none → (osWrite fl os f p).2.2 = some Err.invalid))
      ∨ (∃ i k e, os.file f = some i ∧ fl.write = some (k, e)
          ∧ (osWrite fl os f p).1.data = Function.update os.data i (os.data i ++ p.take k)
          ∧ (osWrite fl os f p).2 = ((p.take k).length, some e))
      ∨ (∃ i, os.file f = some i ∧ fl.write = none
          ∧ (osWrite fl os f p).1.data = Function.update os.data i (os.data i ++ p)
          ∧ (osWrite fl os f p).2 = (p.length, none))) := by
  unfold osWrite OS.file
  cases f with
  | none => simp
  | some h =>
    cases hl : os.fds.lookup h with
    | none => simp [hl]
    | some i =>
      cases hw : fl.write with
      | none => simp [hl, hw]
      | some ke =>
        obtain ⟨k, e⟩ := ke
        simp only [hl]
        refine ⟨rfl, rfl, rfl, rfl, rfl, Or.inr (Or.inl ⟨i, k, e, by simp [hl], rfl, rfl, rfl⟩)⟩


theorem openFile_os (clk : Clock) (fl : Faults) (s : State) :
    (openFile clk fl s).os = (osOpenFile fl s.os (openPath clk s)).1 := rfl

theorem openFile_fd (clk : Clock) (fl : Faults) (s : State) :
    (openFile clk fl s).w.fd = (osOpenFile fl s.os (openPath clk s)).2 := rfl

theorem openFile_write (clk : Clock) (fl : Faults) (s : State) (p : Bytes) :
    (osWrite fl (openFile clk fl s).os (openFile clk fl s).w.fd p).1.log
        = s.os.log ++ [.openFile (openPath clk s), .write (openFile clk fl s).w.fd p]
    ∧ (osWrite fl (openFile clk fl s).os (openFile clk fl s).w.fd p).1.dirs = s.os.dirs
    ∧ (∀ q, q ≠ openPath clk s →
        (osWrite fl (openFile clk fl s).os (openFile clk fl s).w.fd p).1.names.lookup q
          = s.os.names.lookup q)
    ∧ (∀ j, (osWrite fl (openFile clk fl s).os (openFile clk fl s).w.fd p).1.names.lookup
          (openPath clk s) ≠ some j →
        (osWrite fl (openFile clk fl s).os (openFile clk fl s).w.fd p).1.data j = s.os.data j)
    ∧ ((osWrite fl (openFile clk fl s).os (openFile clk fl s).w.fd p).2.2 = none →
        ∃ i, (osWrite fl (openFile clk fl s).os (openFile clk fl s).w.fd p).1.names.lookup
              (openPath clk s) = some i
          ∧ (osWrite fl (openFile clk fl s).os (openFile clk fl s).w.fd p).1.file
              (openFile clk fl s).w.fd = some i
          ∧ (osWrite fl (openFile clk fl s).os (openFile clk fl s).w.fd p).1.data i
              = (s.os.contentAt (openPath clk s)).getD [] ++ p
          ∧ (s.os.names.lookup (openPath clk s) = none → i = s.os.freshIno)
          ∧ (osWrite fl (openFile clk fl s).os (openFile clk fl s).w.fd p).1.data i
              = (openFile clk fl s).os.data i ++ p
          ∧ (osWrite fl (openFile clk fl s).os (openFile clk fl s).w.fd p).2.1 = p.length)
    ∧ (s.os.names.lookup (openPath clk s) = none →
        ∀ j, (osWrite fl (openFile clk fl s).os (openFile clk fl s).w.fd p).1.names.lookup
            (openPath clk s) = some j → j = s.os.freshIno) := by
  rw [openFile_os, openFile_fd]
  obtain ⟨ol, od, ocase⟩ := osOpenFile_spec fl s.os (openPath clk s)
  generalize osOpenFile fl s.os (openPath clk s) = ro at ol od ocase ⊢
  obtain ⟨wl, wd, wn, wf, -, wcase⟩ := osWrite_spec fl ro.1 ro.2 p
  generalize osWrite fl ro.1 ro.2 p = r at wl wd wn wf wcase ⊢
  refine ⟨by rw [wl, ol]; simp, by rw [wd, od], ?_, ?_, ?_, ?_⟩
  rotate_left 3
  · intro hnone j hj
    rw [wn] at hj
    rcases ocase with ⟨-, hn, -⟩ | ⟨i, hl, -⟩ | ⟨-, -, hn, -⟩
    · rw [hn, hnone] at hj; cases hj
    · rw [hl] at hnone; cases hnone
    · rw [hn, lookup_cons_self] at hj
      exact (Option.some.inj hj).symm
  · intro q hq
    rw [wn]
    rcases ocase with ⟨-, hn, -⟩ | ⟨i, -, -, hn, -⟩ | ⟨-, -, hn, -⟩
    · rw [hn]
    · rw [hn]
    · rw [hn, lookup_cons_ne _ _ _ _ hq]
  · intro j hj
    rw [wn] at hj
    rcases ocase with ⟨hfd, hn, hdt, -⟩ | ⟨i, hl, hfd, hn, hdt, hfds, -⟩ | ⟨hl, hfd, hn, hdt, hfds, -⟩
    · rcases wcase with ⟨-, h, -⟩ | ⟨i, k, e, hf, -⟩ | ⟨i, hf, -⟩
      · rw [h, hdt]
      · simp [OS.file, hfd] at hf
      · simp [OS.file, hfd] at hf
    · rw [hn, hl] at hj
      have hji : j ≠ i := fun h => hj (by rw [h])
      rcases wcase with ⟨-, h, -⟩ | ⟨i', k, e, hf, -, h, -⟩ | ⟨i', hf, -, h, -⟩
      · rw [h, hdt]
      · have : i' = i := by simpa [OS.file, hfd, hfds, lookup_cons_self] using hf.symm
        rw [h, this, Function.update_noteq hji, hdt]
      · have : i' = i := by simpa [OS.file, hfd, hfds, lookup_cons_self] using hf.symm
        rw [h, this, Function.update_noteq hji, hdt]
    · rw [hn, lookup_cons_self] at hj
      have hji : j ≠ s.os.freshIno := fun h => hj (by rw [h])
      rcases wcase with ⟨-, h, -⟩ | ⟨i', k, e, hf, -, h, -⟩ | ⟨i', hf, -, h, -⟩
      · rw [h, hdt, Function.update_noteq hji]
      · have : i' = s.os.freshIno := by simpa [OS.file, hfd, hfds, lookup_cons_self] using hf.symm
        rw [h, this, Function.update_noteq hji, hdt, Function.update_noteq hji]
      · have : i' = s.os.freshIno := by simpa [OS.file, hfd, hfds, lookup_cons_self] using hf.symm
        rw [h, this, Function.update_noteq hji, hdt, Function.update_noteq hji]
  · intro hok
    rcases wcase with ⟨-, -, -, h, -⟩ | ⟨i', k, e, -, -, -, h⟩ | ⟨i', hf, -, h, hres⟩
    · exact absurd hok h
    · rw [h] at hok; cases hok
    · rcases ocase with ⟨hfd, -⟩ | ⟨i, hl, hfd, hn, hdt, hfds, -⟩ | ⟨hl, hfd, hn, hdt, hfds, -⟩
      · simp [OS.file, hfd] at hf
      · have hi : i' = i := by simpa [OS.file, hfd, hfds, lookup_cons_self] using hf.symm
        subst hi
        refine ⟨i', by rw [wn, hn, hl], ?_, ?_, ?_, by rw [h]; simp, by rw [hres]⟩
        · simpa [OS.file, wf] using hf
        · rw [h, hdt]; simp [OS.contentAt, hl]
        · intro hn'; rw [hl] at hn'; cases hn'
      · have hi : i' = s.os.freshIno := by simpa [OS.file, hfd, hfds, lookup_cons_self] using hf.symm
        subst hi
        refine ⟨s.os.freshIno, by rw [wn, hn, lookup_cons_self], ?_, ?_, fun _ => rfl,
          by rw [h]; simp, by rw [hres]⟩
        · simpa [OS.file, wf] using hf
        · rw [h, hdt]; simp [OS.contentAt, hl]


theorem openFile_write_fds (clk : Clock) (fl : Faults) (s : State) (p : Bytes) :
    ((openFile clk fl s).w.fd = none
      ∧ (osWrite fl (openFile clk fl s).os (openFile clk fl s).w.fd p).1.fds = s.os.fds)
    ∨ ∃ i, (openFile clk fl s).w.fd = some s.os.nextFd
      ∧ (osWrite fl (openFile clk fl s).os (openFile clk fl s).w.fd p).1.fds
          = (s.os.nextFd, i) :: s.os.fds := by
  rw [openFile_os, openFile_fd]
  obtain ⟨-, -, ocase⟩ := osOpenFile_spec fl s.os (openPath clk s)
  obtain ⟨-, -, -, wf, -⟩ := osWrite_spec fl (osOpenFile fl s.os (openPath clk s)).1
    (osOpenFile fl s.os (openPath clk s)).2 p
  rcases ocase with ⟨hfd, -, -, hfds, -⟩ | ⟨i, -, hfd, -, -, hfds, -⟩ | ⟨-, hfd, -, -, hfds, -⟩
  · exact Or.inl ⟨hfd, by rw [wf, hfds]⟩
  · exact Or.inr ⟨i, hfd, by rw [wf, hfds]⟩
  · exact Or.inr ⟨s.os.freshIno, hfd, by rw [wf, hfds]⟩

theorem prepare_newDir (clk : Clock) (fl : Faults) (s : State)
    (h : branch clk fl s = .newDir) :
    prepare clk fl s = openFile clk fl
      ⟨dated clk s.w, (osMkdirAll fl (s.os.record (.stat (dirPath clk s.w))) (dirPath clk s.w)).1⟩ := by
  unfold branch at h
  unfold prepare
  by_cases h1 : (osStat fl s.os (dirPath clk s.w)).2 = .notExist
  · simp only [dirPath] at h1
    simp only [h1, if_true]
    rfl
  · rw [if_neg h1] at h
    cases hf : (osFstat fl s.os s.w.fd).2 with
    | none => rw [hf] at h; cases h
    | some size =>
      rw [hf] at h
      dsimp only at h
      split_ifs at h

theorem prepare_else (clk : Clock) (fl : Faults) (s : State)
    (h : branch clk fl s ≠ .newDir) :
    (osStat fl s.os (dirPath clk s.w)).2 ≠ .notExist := by
  intro h1
  apply h
  unfold branch
  rw [if_pos h1]

theorem prepare_statFail (clk : Clock) (fl : Faults) (s : State)
    (h : branch clk fl s = .statFail) :
    prepare clk fl s = openFile clk fl ⟨dated clk s.w, statted clk s⟩ := by
  have h1 := prepare_else clk fl s (by rw [h]; decide)
  unfold branch at h
  rw [if_neg h1] at h
  unfold prepare
  simp only [dirPath] at h1
  simp only [h1, if_false]
  cases hf : (osFstat fl s.os s.w.fd).2 with
  | none =>
    have : (osFstat fl (osStat fl s.os (Join [s.w.baseDir, Format s.w.dnFormat clk.dir])).1 s.w.fd).2
        = none := hf
    simp only [this]
    rfl
  | some size =>
    rw [hf] at h
    dsimp only at h
    split_ifs at h

theorem branch_size (clk : Clock) (fl : Faults) (s : State)
    (h : branch clk fl s ≠ .newDir) (h' : branch clk fl s ≠ .statFail) :
    ∃ i, s.os.file s.w.fd = some i ∧ fl.fstat = false
      ∧ (osFstat fl s.os s.w.fd).2 = some (s.os.data i).length := by
  have h1 := prepare_else clk fl s h
  unfold branch at h'
  rw [if_neg h1] at h'
  cases hf : (osFstat fl s.os s.w.fd).2 with
  | none => rw [hf] at h'; exact absurd rfl h'
  | some size =>
    unfold osFstat at hf
    by_cases hfl : fl.fstat = true
    · simp [hfl] at hf
    · cases hfile : s.os.file s.w.fd with
      | none => simp [hfl, hfile] at hf
      | some i =>
        refine ⟨i, rfl, by simpa using hfl, ?_⟩
        simp [hfl, hfile] at hf
        simp [hf]

theorem prepare_rollover (clk : Clock) (fl : Faults) (s : State)
    (h : branch clk fl s = .rollover) :
    prepare clk fl s = openFile clk fl ⟨dated clk s.w, osClose (statted clk s) s.w.fd⟩
    ∧ Format s.w.fnFormat clk.stem ≠ s.w.fileName := by
  have h1 := prepare_else clk fl s (by rw [h]; decide)
  obtain ⟨i, hfile, hfl, hf⟩ := branch_size clk fl s (by rw [h]; decide) (by rw [h]; decide)
  unfold branch at h
  rw [if_neg h1, hf] at h
  dsimp only at h
  have hne : Format s.w.fnFormat clk.stem ≠ s.w.fileName := by
    by_contra hc
    rw [if_neg (not_not.mpr hc)] at h
    split_ifs at h
  refine ⟨?_, hne⟩
  unfold prepare
  simp only [dirPath] at h1
  simp only [h1, if_false]
  have : (osFstat fl (osStat fl s.os (Join [s.w.baseDir, Format s.w.dnFormat clk.dir])).1 s.w.fd).2
        = some (s.os.data i).length := hf
  simp only [this]
  rw [if_pos hne]
  rfl

theorem prepare_overflow (clk : Clock) (fl : Faults) (s : State)
    (h : branch clk fl s = .overflow) :
    prepare clk fl s
      = openFile clk fl (rotate clk fl ⟨dated clk s.w, osClose (statted clk s) s.w.fd⟩)
    ∧ Format s.w.fnFormat clk.stem = s.w.fileName
    ∧ ∃ i, s.os.file s.w.fd = some i ∧ ((s.os.data i).length : Int) > s.w.maxBytes := by
  have h1 := prepare_else clk fl s (by rw [h]; decide)
  obtain ⟨i, hfile, hfl, hf⟩ := branch_size clk fl s (by rw [h]; decide) (by rw [h]; decide)
  unfold branch at h
  rw [if_neg h1, hf] at h
  dsimp only at h
  have heq : Format s.w.fnFormat clk.stem = s.w.fileName := by
    by_contra hc
    rw [if_pos hc] at h
    cases h
  rw [if_neg (not_not.mpr heq)] at h
  have hsz : ((s.os.data i).length : Int) > s.w.maxBytes := by
    by_contra hc
    rw [if_neg hc] at h
    cases h
  refine ⟨?_, heq, i, hfile, hsz⟩
  unfold prepare
  simp only [dirPath] at h1
  simp only [h1, if_false]
  have : (osFstat fl (osStat fl s.os (Join [s.w.baseDir, Format s.w.dnFormat clk.dir])).1 s.w.fd).2
        = some (s.os.data i).length := hf
  simp only [this]
  rw [if_neg (not_not.mpr heq), if_pos hsz]
  rfl

theorem prepare_keep (clk : Clock) (fl : Faults) (s : State)
    (h : branch clk fl s = .keep) :
    prepare clk fl s = ⟨dated clk s.w, statted clk s⟩
    ∧ Format s.w.fnFormat clk.stem = s.w.fileName
    ∧ ∃ i, s.os.file s.w.fd = some i ∧ ((s.os.data i).length : Int) ≤ s.w.maxBytes := by
  have h1 := prepare_else clk fl s (by rw [h]; decide)
  obtain ⟨i, hfile, hfl, hf⟩ := branch_size clk fl s (by rw [h]; decide) (by rw [h]; decide)
  unfold branch at h
  rw [if_neg h1, hf] at h
  dsimp only at h
  have heq : Format s.w.fnFormat clk.stem = s.w.fileName := by
    by_contra hc
    rw [if_pos hc] at h
    cases h
  rw [if_neg (not_not.mpr heq)] at h
  have hsz : ¬ ((s.os.data i).length : Int) > s.w.maxBytes := by
    intro hc
    rw [if_pos hc] at h
    cases h
  refine ⟨?_, heq, i, hfile, not_lt.mp hsz⟩
  unfold prepare
  simp only [dirPath] at h1
  simp only [h1, if_false]
  have : (osFstat fl (osStat fl s.os (Join [s.w.baseDir, Format s.w.dnFormat clk.dir])).1 s.w.fd).2
        = some (s.os.data i).length := hf
  simp only [this]
  rw [if_neg (not_not.mpr heq), if_neg hsz]
  rfl



theorem osClose_spec (os : OS) (f : Option Nat) :
    (osClose os f).log = os.log ++ [.close f] ∧ (osClose os f).dirs = os.dirs
    ∧ (osClose os f).names = os.names ∧ (osClose os f).data = os.data
    ∧ (osClose os f).nextFd = os.nextFd := by
  cases f <;> exact ⟨rfl, rfl, rfl, rfl, rfl⟩

theorem osMkdirAll_spec (fl : Faults) (os : OS) (p : Path) :
    (osMkdirAll fl os p).1.log = os.log ++ [.mkdirAll p]
    ∧ (osMkdirAll fl os p).1.names = os.names ∧ (osMkdirAll fl os p).1.data = os.data
    ∧ (osMkdirAll fl os p).1.fds = os.fds ∧ (osMkdirAll fl os p).1.nextFd = os.nextFd := by
  unfold osMkdirAll
  split_ifs <;> exact ⟨rfl, rfl, rfl, rfl, rfl⟩

theorem lookup_filter_two {β : Type} (l : List (Path × β)) (a b q : Path) :
    (l.filter (fun e => e.1 ≠ a ∧ e.1 ≠ b)).lookup q
      = if q = a ∨ q = b then none else l.lookup q := by
  induction l with
  | nil => simp
  | cons e l ih =>
    obtain ⟨k, v⟩ := e
    by_cases hk : k ≠ a ∧ k ≠ b
    · rw [List.filter_cons_of_pos (by simpa using hk)]
      by_cases hq : q = k
      · subst hq
        rw [lookup_cons_self, lookup_cons_self, if_neg (by tauto)]
      · rw [lookup_cons_ne _ _ _ _ hq, lookup_cons_ne _ _ _ _ hq, ih]
    · rw [List.filter_cons_of_neg (by simpa using hk), ih]
      by_cases hq : q = k
      · subst hq
        rw [if_pos (by tauto), if_pos (by tauto)]
      · rw [lookup_cons_ne _ _ _ _ hq]

theorem osRename_spec (fl : Faults) (os : OS) (old new : Path) :
    (osRename fl os old new).1.log = os.log ++ [.rename old new]
    ∧ (osRename fl os old new).1.dirs = os.dirs ∧ (osRename fl os old new).1.data = os.data
    ∧ (osRename fl os old new).1.fds = os.fds ∧ (osRename fl os old new).1.nextFd = os.nextFd
    ∧ (((osRename fl os old new).2 = false ∧ (osRename fl os old new).1.names = os.names
          ∧ (fl.rename = true ∨ os.canRename old new = false))
      ∨ ((osRename fl os old new).2 = true ∧ old = new ∧ (osRename fl os old new).1.names = os.names)
      ∨ (∃ i, (osRename fl os old new).2 = true ∧ old ≠ new ∧ os.names.lookup old = some i
          ∧ fl.rename = false ∧ os.canRename old new = true
          ∧ (osRename fl os old new).1.names
              = (new, i) :: os.names.filter (fun e => e.1 ≠ old ∧ e.1 ≠ new))) := by
  unfold osRename
  by_cases h1 : fl.rename = true ∨ ¬ os.canRename old new = true
  · rw [if_pos h1]
    refine ⟨rfl, rfl, rfl, rfl, rfl, Or.inl ⟨rfl, rfl, ?_⟩⟩
    rcases h1 with h | h
    · exact Or.inl h
    · exact Or.inr (by simpa using h)
  · rw [if_neg h1]
    have hfl : fl.rename = false := by
      cases hh : fl.rename with
      | false => rfl
      | true => exact absurd (Or.inl hh) h1
    have hcan : os.canRename old new = true := by
      by_contra hc
      exact h1 (Or.inr hc)
    cases hl : os.names.lookup old with
    | none =>
      exfalso
      simp [OS.canRename, OS.isFile, hl] at hcan
    | some i =>
      by_cases h2 : old = new
      · dsimp only
        rw [if_pos h2]
        exact ⟨rfl, rfl, rfl, rfl, rfl, Or.inr (Or.inl ⟨rfl, h2, rfl⟩)⟩
      · dsimp only
        rw [if_neg h2]
        exact ⟨rfl, rfl, rfl, rfl, rfl, Or.inr (Or.inr ⟨i, rfl, h2, rfl, hfl, hcan, rfl⟩)⟩

theorem rotate_w (clk : Clock) (fl : Faults) (s : State) : (rotate clk fl s).w = s.w := rfl

theorem rotate_os (clk : Clock) (fl : Faults) (s : State) :
    (rotate clk fl s).os = (osRename fl s.os (oldPath s.w) (newPath s.w clk.rot)).1 := rfl

theorem Write_fst_w (clk : Clock) (fl : Faults) (s : State) (p : Bytes) :
    (Write clk fl s p).1.w = (prepare clk fl s).w := rfl

theorem Write_fst_os (clk : Clock) (fl : Faults) (s : State) (p : Bytes) :
    (Write clk fl s p).1.os
      = (osWrite fl (prepare clk fl s).os (prepare clk fl s).w.fd p).1 := rfl

theorem Write_snd (clk : Clock) (fl : Faults) (s : State) (p : Bytes) :
    (Write clk fl s p).2 = (osWrite fl (prepare clk fl s).os (prepare clk fl s).w.fd p).2 := rfl

theorem statted_log (clk : Clock) (s : State) :
    (statted clk s).log = s.os.log ++ [.stat (dirPath clk s.w), .fstat s.w.fd] := by
  simp [statted]

theorem branch_cases_of_fstat (clk : Clock) (fl : Faults) (s : State) (i : Ino)
    (hdir : s.os.isDir (dirPath clk s.w) = true)
    (hfstat : fl.fstat = false) (hfile : s.os.file s.w.fd = some i) :
    branch clk fl s =
      if Format s.w.fnFormat clk.stem ≠ s.w.fileName then .rollover
      else if ((s.os.data i).length : Int) > s.w.maxBytes then .overflow
      else .keep := by
  have h1 : (osStat fl s.os (dirPath clk s.w)).2 ≠ .notExist := by
    unfold osStat
    by_cases hs : fl.stat = true <;> simp [hs, hdir]
  have h2 : (osFstat fl s.os s.w.fd).2 = some (s.os.data i).length := by
    simp [osFstat, hfstat, hfile]
  unfold branch
  rw [if_neg h1, h2]

theorem osClose_fds (os : OS) (h : Nat) :
    (osClose os (some h)).fds = os.fds.filter (fun e => e.1 ≠ h) := rfl

theorem statted_fds (clk : Clock) (s : State) : (statted clk s).fds = s.os.fds := rfl

theorem statted_nextFd (clk : Clock) (s : State) : (statted clk s).nextFd = s.os.nextFd := rfl


/-! ## The error `Write` returns (C2) -/

theorem prepare_log_extends (clk : Clock) (fl : Faults) (s : State) :
    s.os.log <+: (prepare clk fl s).os.log := by
  have hcases : ∀ b, branch clk fl s = b → s.os.log <+: (prepare clk fl s).os.log := by
    intro b hb
    cases b with
    | newDir =>
      rw [prepare_newDir clk fl s hb, openFile_os]
      obtain ⟨ol, -⟩ := osOpenFile_spec fl
        (osMkdirAll fl (s.os.record (.stat (dirPath clk s.w))) (dirPath clk s.w)).1
        (openPath clk ⟨dated clk s.w,
          (osMkdirAll fl (s.os.record (.stat (dirPath clk s.w))) (dirPath clk s.w)).1⟩)
      obtain ⟨ml, -⟩ := osMkdirAll_spec fl (s.os.record (.stat (dirPath clk s.w))) (dirPath clk s.w)
      rw [ol, ml]
      simp [List.append_assoc]
    | statFail =>
      rw [prepare_statFail clk fl s hb, openFile_os]
      obtain ⟨ol, -⟩ := osOpenFile_spec fl (statted clk s)
        (openPath clk ⟨dated clk s.w, statted clk s⟩)
      rw [ol, statted_log]
      simp [List.append_assoc]
    | rollover =>
      rw [(prepare_rollover clk fl s hb).1, openFile_os]
      obtain ⟨ol, -⟩ := osOpenFile_spec fl (osClose (statted clk s) s.w.fd)
        (openPath clk ⟨dated clk s.w, osClose (statted clk s) s.w.fd⟩)
      obtain ⟨cl, -⟩ := osClose_spec (statted clk s) s.w.fd
      rw [ol, cl, statted_log]
      simp [List.append_assoc]
    | overflow =>
      rw [(prepare_overflow clk fl s hb).1, openFile_os]
      obtain ⟨ol, -⟩ := osOpenFile_spec fl
        (rotate clk fl ⟨dated clk s.w, osClose (statted clk s) s.w.fd⟩).os
        (openPath clk (rotate clk fl ⟨dated clk s.w, osClose (statted clk s) s.w.fd⟩))
      obtain ⟨rl, -⟩ := osRename_spec fl (osClose (statted clk s) s.w.fd)
        (oldPath (dated clk s.w)) (newPath (dated clk s.w) clk.rot)
      obtain ⟨cl, -⟩ := osClose_spec (statted clk s) s.w.fd
      rw [ol, rotate_os, rl, cl, statted_log]
      simp [List.append_assoc]
    | keep =>
      rw [(prepare_keep clk fl s hb).1]
      show s.os.log <+: (statted clk s).log
      rw [statted_log]
      simp
  exact hcases _ rfl

theorem openFile_fault (clk : Clock) (fl : Faults) (s : State) (h : fl.openFile = true) :
    (openFile clk fl s).w.fd = none := by
  rw [openFile_fd]
  unfold osOpenFile
  rw [if_pos (Or.inl h)]

theorem prepare_fault (clk : Clock) (fl : Faults) (s : State) (h : fl.openFile = true)
    (hb : branch clk fl s ≠ .keep) : (prepare clk fl s).w.fd = none := by
  cases hbr : branch clk fl s with
  | newDir => rw [prepare_newDir clk fl s hbr]; exact openFile_fault clk fl _ h
  | statFail => rw [prepare_statFail clk fl s hbr]; exact openFile_fault clk fl _ h
  | rollover => rw [(prepare_rollover clk fl s hbr).1]; exact openFile_fault clk fl _ h
  | overflow => rw [(prepare_overflow clk fl s hbr).1]; exact openFile_fault clk fl _ h
  | keep => exact absurd hbr hb

/-- C2: `Write` returns exactly what the final `w.fd.Write(p)` on the handle left
by the preceding statements returns. The error is non-nil if and only if that
append fails, that is, the handle is nil or closed or the append itself is cut
short; it is then `ErrInvalid`, `ErrClosed` or the error of the append, whatever
the outcome of directory creation, open and rename in the same call. The append
is always attempted, as the last call, and a failed open, which leaves a nil
handle, is seen as the result `(0, ErrInvalid)` of that append. -/
theorem Write_returns_append_result (clk : Clock) (fl : Faults) (s : State) (p : Bytes) :
    (Write clk fl s p).2 = (osWrite fl (prepare clk fl s).os (prepare clk fl s).w.fd p).2
    ∧ ((Write clk fl s p).2.2 ≠ none ↔
        ((prepare clk fl s).os.file (prepare clk fl s).w.fd = none ∨ fl.write.isSome = true))
    ∧ (∀ e, (Write clk fl s p).2.2 = some e →
        e = Err.invalid ∨ e = Err.closed ∨ ∃ k, fl.write = some (k, e))
    ∧ ((prepare clk fl s).w.fd = none → (Write clk fl s p).2 = (0, some Err.invalid))
    ∧ (fl.openFile = true → branch clk fl s ≠ .keep →
        (Write clk fl s p).2 = (0, some Err.invalid))
    ∧ (Write clk fl s p).1.os.log
        = (prepare clk fl s).os.log ++ [Call.write (prepare clk fl s).w.fd p]
    ∧ s.os.log <+: (prepare clk fl s).os.log := by
  refine ⟨rfl, ?_, ?_, ?_, ?_, ?_, prepare_log_extends clk fl s⟩
  · rw [Write_snd]
    exact osWrite_snd fl _ _ p
  · intro e he
    rw [Write_snd] at he
    obtain ⟨-, -, -, -, -, wcase⟩ :=
      osWrite_spec fl (prepare clk fl s).os (prepare clk fl s).w.fd p
    rcases wcase with ⟨-, -, -, -, h, -⟩ | ⟨i, k, e', -, hw, -, h⟩ | ⟨i, -, -, -, h⟩
    · rcases h with h | h
      · rw [h] at he; cases he; exact Or.inl rfl
      · rw [h] at he; cases he; exact Or.inr (Or.inl rfl)
    · rw [h] at he
      cases he
      exact Or.inr (Or.inr ⟨k, hw⟩)
    · rw [h] at he; cases he
  · intro hnil
    rw [Write_snd, hnil]
    rfl
  · intro hf hb
    rw [Write_snd, prepare_fault clk fl s hf hb]
    rfl
  · rw [Write_fst_os]
    exact (osWrite_spec fl _ _ p).1


/-! ## A changed stem (C7) -/

theorem openPath_dated (t : Time) (w : zWriter) (os : OS) :
    openPath (Clock.const t) ⟨dated (Clock.const t) w, os⟩ = target w t := rfl

theorem contentAt_congr (os os' : OS) (q : Path) (hn : os'.names = os.names)
    (hd : os'.data = os.data) : os'.contentAt q = os.contentAt q := by
  simp [OS.contentAt, hn, hd]

/-- C7, as amended: when the directory exists, the stat of the handle succeeds
and the stem of the current time differs from `fileName`, the call makes
exactly the calls stat, fstat, close of the current handle, open of
`<dir>/<new stem><ext>` and write on the handle that open returned, so no
rename whatever the size; every path other than the opened one keeps its file
and every file other than the opened one keeps its content; the handle held
before is no longer among the open files, which are the others and, when the
open succeeded, the new one; and when the append succeeds the opened file
holds its previous content followed by `p`. -/
theorem rollover_reopens_without_rename (t : Time) (fl : Faults) (s : State) (p : Bytes)
    (i : Ino) (hdir : s.os.isDir (dirPath (Clock.const t) s.w) = true)
    (hfstat : fl.fstat = false) (hfile : s.os.file s.w.fd = some i)
    (hstem : Format s.w.fnFormat t ≠ s.w.fileName) :
    (Write (Clock.const t) fl s p).1.os.log = s.os.log ++
        [.stat (dirPath (Clock.const t) s.w), .fstat s.w.fd, .close s.w.fd,
         .openFile (target s.w t), .write (Write (Clock.const t) fl s p).1.w.fd p]
    ∧ (∀ q, q ≠ target s.w t →
        (Write (Clock.const t) fl s p).1.os.names.lookup q = s.os.names.lookup q)
    ∧ (∀ j, (Write (Clock.const t) fl s p).1.os.names.lookup (target s.w t) ≠ some j →
        (Write (Clock.const t) fl s p).1.os.data j = s.os.data j)
    ∧ ((Write (Clock.const t) fl s p).2.2 = none →
        (Write (Clock.const t) fl s p).1.os.contentAt (target s.w t)
          = some ((s.os.contentAt (target s.w t)).getD [] ++ p))
    ∧ (∀ h, s.w.fd = some h →
        ((Write (Clock.const t) fl s p).1.w.fd = none
          ∧ (Write (Clock.const t) fl s p).1.os.fds = s.os.fds.filter (fun e => e.1 ≠ h))
        ∨ ∃ i', (Write (Clock.const t) fl s p).1.w.fd = some s.os.nextFd
          ∧ (Write (Clock.const t) fl s p).1.os.fds
              = (s.os.nextFd, i') :: s.os.fds.filter (fun e => e.1 ≠ h)) := by
  have hb : branch (Clock.const t) fl s = .rollover := by
    rw [branch_cases_of_fstat _ fl s i hdir hfstat hfile]
    exact if_pos hstem
  obtain ⟨hp, -⟩ := prepare_rollover _ fl s hb
  obtain ⟨cl, -, cn, cd, cnext⟩ := osClose_spec (statted (Clock.const t) s) s.w.fd
  obtain ⟨h1, -, h3, h4, h5, h6⟩ := openFile_write (Clock.const t) fl
    ⟨dated (Clock.const t) s.w, osClose (statted (Clock.const t) s) s.w.fd⟩ p
  have h7 := openFile_write_fds (Clock.const t) fl
    ⟨dated (Clock.const t) s.w, osClose (statted (Clock.const t) s) s.w.fd⟩ p
  rw [← hp, openPath_dated] at h1 h3 h4 h5
  rw [← hp] at h7
  rw [Write_fst_os, Write_fst_w, Write_snd]
  refine ⟨?_, ?_, ?_, ?_, ?_⟩
  rotate_left 4
  · intro h hh
    dsimp only at h7
    rw [cnext, statted_nextFd, hh, osClose_fds, statted_fds] at h7
    exact h7
  · rw [h1]
    show (osClose (statted (Clock.const t) s) s.w.fd).log ++ _ = _
    rw [cl, statted_log]
    simp
  · intro q hq
    rw [h3 q hq]
    show (osClose (statted (Clock.const t) s) s.w.fd).names.lookup q = _
    rw [cn]
    rfl
  · intro j hj
    rw [h4 j hj]
    show (osClose (statted (Clock.const t) s) s.w.fd).data j = _
    rw [cd]
    rfl
  · intro hok
    obtain ⟨i', hl, -, hdata, -⟩ := h5 hok
    have hc : (osClose (statted (Clock.const t) s) s.w.fd).contentAt (target s.w t)
        = s.os.contentAt (target s.w t) :=
      contentAt_congr s.os _ _ (by rw [cn]; rfl) (by rw [cd]; rfl)
    simp only [OS.contentAt, hl, Option.map_some']
    rw [hdata]
    show some (((osClose (statted (Clock.const t) s) s.w.fd).contentAt (target s.w t)).getD [] ++ p) = _
    rw [hc]
    rfl


/-! ## The file a record lands in (C1) -/

theorem openPath_of_dated (t : Time) (s0 : State) (w : zWriter)
    (hw : s0.w = dated (Clock.const t) w) : openPath (Clock.const t) s0 = target w t := by
  unfold openPath
  rw [hw]
  rfl

theorem reopen_lands (t : Time) (fl : Faults) (s s0 : State) (p : Bytes)
    (hw : s0.w = dated (Clock.const t) s.w) (hd : s0.os.data = s.os.data)
    (hprep : prepare (Clock.const t) fl s = openFile (Clock.const t) fl s0)
    (hok : (Write (Clock.const t) fl s p).2.2 = none) :
    ∃ i, (Write (Clock.const t) fl s p).1.os.names.lookup (target s.w t) = some i
      ∧ (Write (Clock.const t) fl s p).1.os.file (Write (Clock.const t) fl s p).1.w.fd = some i
      ∧ (Write (Clock.const t) fl s p).1.os.data i
          = (prepare (Clock.const t) fl s).os.data i ++ p
      ∧ (Write (Clock.const t) fl s p).2.1 = p.length
      ∧ ∀ j, j ≠ i → (Write (Clock.const t) fl s p).1.os.data j = s.os.data j := by
  obtain ⟨-, -, -, h4, h5, -⟩ := openFile_write (Clock.const t) fl s0 p
  rw [← hprep, openPath_of_dated t s0 s.w hw] at h4 h5
  rw [Write_snd] at hok
  obtain ⟨i, hl, hf, -, -, hdata, hlen⟩ := h5 hok
  rw [Write_fst_os, Write_fst_w, Write_snd]
  refine ⟨i, hl, hf, hdata, hlen, ?_⟩
  intro j hj
  rw [h4 j (by rw [hl]; intro h; exact hj (Option.some.inj h).symm), hd]

theorem statted_file (clk : Clock) (s : State) (f : Option Nat) :
    (statted clk s).file f = s.os.file f := rfl

/-- C1, as amended: when the final append succeeds at time `t`, and the handle
is either reopened by the call or, if it is kept, is open on the file at
`Join(baseDir, t formatted with dnFormat, (t formatted with fnFormat) + ext)`,
then after the call that path names a file whose content is the content it had
when the append was issued followed by `p`, all of `p` was written, and the
content of every other file is what it was before the call. -/
theorem append_lands_at_target (t : Time) (fl : Faults) (s : State) (p : Bytes)
    (hok : (Write (Clock.const t) fl s p).2.2 = none)
    (hkeep : branch (Clock.const t) fl s = .keep →
      s.os.file s.w.fd = s.os.names.lookup (target s.w t)) :
    ∃ i, (Write (Clock.const t) fl s p).1.os.names.lookup (target s.w t) = some i
      ∧ (Write (Clock.const t) fl s p).1.os.file (Write (Clock.const t) fl s p).1.w.fd = some i
      ∧ (Write (Clock.const t) fl s p).1.os.data i
          = (prepare (Clock.const t) fl s).os.data i ++ p
      ∧ (Write (Clock.const t) fl s p).2.1 = p.length
      ∧ ∀ j, j ≠ i → (Write (Clock.const t) fl s p).1.os.data j = s.os.data j := by
  cases hb : branch (Clock.const t) fl s with
  | newDir =>
    refine reopen_lands t fl s _ p rfl ?_ (prepare_newDir _ fl s hb) hok
    exact (osMkdirAll_spec fl _ _).2.2.1
  | statFail =>
    exact reopen_lands t fl s ⟨dated (Clock.const t) s.w, statted (Clock.const t) s⟩ p rfl rfl
      (prepare_statFail _ fl s hb) hok
  | rollover =>
    refine reopen_lands t fl s _ p rfl ?_ (prepare_rollover _ fl s hb).1 hok
    exact (osClose_spec _ _).2.2.2.1
  | overflow =>
    refine reopen_lands t fl s _ p (rotate_w _ fl _) ?_ (prepare_overflow _ fl s hb).1 hok
    rw [rotate_os, (osRename_spec fl _ _ _).2.2.1]
    exact (osClose_spec _ _).2.2.2.1
  | keep =>
    obtain ⟨hp, -, -⟩ := prepare_keep _ fl s hb
    have hk := hkeep hb
    rw [Write_snd, hp] at hok
    rw [Write_fst_os, Write_fst_w, Write_snd, hp]
    obtain ⟨-, -, wn, wf, -, wcase⟩ :=
      osWrite_spec fl (statted (Clock.const t) s) s.w.fd p
    change (osWrite fl (statted (Clock.const t) s) s.w.fd p).2.2 = none at hok
    change ∃ i, (osWrite fl (statted (Clock.const t) s) s.w.fd p).1.names.lookup (target s.w t)
          = some i
      ∧ (osWrite fl (statted (Clock.const t) s) s.w.fd p).1.file s.w.fd = some i
      ∧ (osWrite fl (statted (Clock.const t) s) s.w.fd p).1.data i
          = (statted (Clock.const t) s).data i ++ p
      ∧ (osWrite fl (statted (Clock.const t) s) s.w.fd p).2.1 = p.length
      ∧ ∀ j, j ≠ i → (osWrite fl (statted (Clock.const t) s) s.w.fd p).1.data j = s.os.data j
    rcases wcase with ⟨-, -, -, h, -⟩ | ⟨i, k, e, -, -, -, h⟩ | ⟨i, hf, -, hdata, hres⟩
    · exact absurd hok h
    · rw [h] at hok; cases hok
    · rw [statted_file] at hf
      refine ⟨i, ?_, ?_, ?_, by rw [hres], ?_⟩
      · rw [wn]
        show s.os.names.lookup (target s.w t) = some i
        rw [← hk, hf]
      · show Option.bind s.w.fd (fun h => (osWrite fl (statted (Clock.const t) s) s.w.fd p).1.fds.lookup h) = some i
        rw [wf]
        exact hf
      · rw [hdata]; simp
      · intro j hj
        rw [hdata, Function.update_noteq hj]
        rfl


/-! ## Rotation by size (C3) -/

theorem le_foldr_max (l : List Nat) (j : Nat) (h : j ∈ l) : j ≤ l.foldr max 0 := by
  induction l with
  | nil => cases h
  | cons a l ih =>
    rcases List.mem_cons.mp h with h | h
    · subst h
      exact le_max_left _ _
    · exact le_trans (ih h) (le_max_right _ _)

theorem mem_of_lookup {β : Type} (l : List (Path × β)) (q : Path) (j : β)
    (h : l.lookup q = some j) : (q, j) ∈ l := by
  induction l with
  | nil => cases h
  | cons e l ih =>
    obtain ⟨k, v⟩ := e
    by_cases hq : q = k
    · subst hq
      rw [lookup_cons_self] at h
      cases h
      exact List.mem_cons_self _ _
    · rw [lookup_cons_ne _ _ _ _ hq] at h
      exact List.mem_cons_of_mem _ (ih h)

theorem lookup_lt_freshIno (os : OS) (q : Path) (j : Ino) (h : os.names.lookup q = some j) :
    j < os.freshIno := by
  unfold OS.freshIno
  apply Nat.lt_succ_of_le
  apply le_foldr_max
  apply List.mem_append_left
  exact List.mem_map.mpr ⟨(q, j), mem_of_lookup _ _ _ h, rfl⟩

theorem target_eq_oldPath (t : Time) (w : zWriter) (h : Format w.fnFormat t = w.fileName) :
    target w t = oldPath (dated (Clock.const t) w) := by
  unfold target oldPath
  rw [h]
  rfl

/-- C3, as amended: when the directory exists, the stat of the handle succeeds
and the stem of the current time equals `fileName`, the call rotates if and
only if the size of the open file is strictly greater than `maxBytes`. When it
rotates it makes the calls close, rename of `<dir>/<stem><ext>` to
`<dir>/<stem>_<Unix seconds><ext>`, open of the original path and write; the
handle held before is no longer among the open files, which are the others
and, when the open succeeded, the new one; and
when that rename succeeds, to a path different from the original, the file that
was at the original path is at the new path with its content unchanged, and
when the append succeeds too the original path names a new file holding
exactly `p`. When it does not rotate it makes no close, rename or open, the
handle, the directory entries and the open files stay as they were, and when
the append succeeds the open file holds its content followed by `p` and no
other file changes. -/
theorem rotation_by_size (t : Time) (fl : Faults) (s : State) (p : Bytes) (i0 : Ino)
    (hdir : s.os.isDir (dirPath (Clock.const t) s.w) = true)
    (hfstat : fl.fstat = false) (hfile : s.os.file s.w.fd = some i0)
    (hstem : Format s.w.fnFormat t = s.w.fileName) :
    (branch (Clock.const t) fl s = .overflow ↔ ((s.os.data i0).length : Int) > s.w.maxBytes)
    ∧ (((s.os.data i0).length : Int) > s.w.maxBytes →
        (Write (Clock.const t) fl s p).1.os.log = s.os.log ++
          [.stat (dirPath (Clock.const t) s.w), .fstat s.w.fd, .close s.w.fd,
           .rename (target s.w t) (newPath (dated (Clock.const t) s.w) t),
           .openFile (target s.w t), .write (Write (Clock.const t) fl s p).1.w.fd p]
        ∧ (∀ h, s.w.fd = some h →
            ((Write (Clock.const t) fl s p).1.w.fd = none
              ∧ (Write (Clock.const t) fl s p).1.os.fds
                  = s.os.fds.filter (fun e => e.1 ≠ h))
            ∨ ∃ i', (Write (Clock.const t) fl s p).1.w.fd = some s.os.nextFd
              ∧ (Write (Clock.const t) fl s p).1.os.fds
                  = (s.os.nextFd, i') :: s.os.fds.filter (fun e => e.1 ≠ h))
        ∧ (fl.rename = false →
            s.os.canRename (target s.w t) (newPath (dated (Clock.const t) s.w) t) = true →
            target s.w t ≠ newPath (dated (Clock.const t) s.w) t →
            ∃ iP, s.os.names.lookup (target s.w t) = some iP
              ∧ (Write (Clock.const t) fl s p).1.os.names.lookup
                  (newPath (dated (Clock.const t) s.w) t) = some iP
              ∧ (Write (Clock.const t) fl s p).1.os.data iP = s.os.data iP
              ∧ ((Write (Clock.const t) fl s p).2.2 = none →
                  ∃ i, i ≠ iP
                    ∧ (Write (Clock.const t) fl s p).1.os.names.lookup (target s.w t) = some i
                    ∧ (Write (Clock.const t) fl s p).1.os.data i = p)))
    ∧ (¬ ((s.os.data i0).length : Int) > s.w.maxBytes →
        (Write (Clock.const t) fl s p).1.os.log = s.os.log ++
          [.stat (dirPath (Clock.const t) s.w), .fstat s.w.fd, .write s.w.fd p]
        ∧ (Write (Clock.const t) fl s p).1.w.fd = s.w.fd
        ∧ (Write (Clock.const t) fl s p).1.os.names = s.os.names
        ∧ (Write (Clock.const t) fl s p).1.os.fds = s.os.fds
        ∧ ((Write (Clock.const t) fl s p).2.2 = none →
            (Write (Clock.const t) fl s p).1.os.data i0 = s.os.data i0 ++ p
            ∧ ∀ j, j ≠ i0 → (Write (Clock.const t) fl s p).1.os.data j = s.os.data j)) := by
  have hbr := branch_cases_of_fstat (Clock.const t) fl s i0 hdir hfstat hfile
  have hst : ¬ (Format s.w.fnFormat (Clock.const t).stem ≠ s.w.fileName) := not_not.mpr hstem
  rw [if_neg hst] at hbr
  refine ⟨?_, ?_, ?_⟩
  · constructor
    · intro hb
      by_contra hc
      rw [if_neg hc] at hbr
      rw [hbr] at hb
      cases hb
    · intro hsz
      rw [hbr, if_pos hsz]
  · intro hsz
    have hb : branch (Clock.const t) fl s = .overflow := by rw [hbr, if_pos hsz]
    obtain ⟨hp, -, -⟩ := prepare_overflow _ fl s hb
    obtain ⟨cl, cdirs, cn, cd, cnext⟩ := osClose_spec (statted (Clock.const t) s) s.w.fd
    obtain ⟨rl, -, rd, rfds, rnext, rcase⟩ := osRename_spec fl
      (osClose (statted (Clock.const t) s) s.w.fd)
      (oldPath (dated (Clock.const t) s.w)) (newPath (dated (Clock.const t) s.w) t)
    obtain ⟨h1, -, h3, h4, h5, h6⟩ := openFile_write (Clock.const t) fl
      (rotate (Clock.const t) fl
        ⟨dated (Clock.const t) s.w, osClose (statted (Clock.const t) s) s.w.fd⟩) p
    have h7 := openFile_write_fds (Clock.const t) fl
      (rotate (Clock.const t) fl
        ⟨dated (Clock.const t) s.w, osClose (statted (Clock.const t) s) s.w.fd⟩) p
    rw [← hp, rotate_os] at h7
    have hrot7 : (Clock.const t).rot = t := rfl
    rw [hrot7] at h7
    dsimp only at h7
    rw [rfds, rnext, cnext, statted_nextFd] at h7
    rw [← hp, openPath_of_dated t _ s.w (rotate_w _ fl _)] at h1 h3 h4 h5 h6
    rw [rotate_os] at h1 h3 h4 h5 h6
    have hrot : (Clock.const t).rot = t := rfl
    rw [hrot] at h1 h3 h4 h5 h6
    dsimp only at h1 h3 h4 h5 h6
    rw [← target_eq_oldPath t s.w hstem] at rl rd rcase h1 h3 h4 h5 h6
    rw [Write_fst_os, Write_fst_w, Write_snd]
    refine ⟨?_, ?_, ?_⟩
    · rw [h1, rl, cl, statted_log]
      simp
    · intro h hh
      rw [hh, osClose_fds, statted_fds] at h7
      exact h7
    · intro hfl hcan hne
      have hcan' : (osClose (statted (Clock.const t) s) s.w.fd).canRename (target s.w t)
          (newPath (dated (Clock.const t) s.w) t) = true := by
        unfold OS.canRename OS.isFile OS.isDir at hcan ⊢
        rw [cn, cdirs]
        exact hcan
      rcases rcase with ⟨-, -, hbad⟩ | ⟨-, heq, -⟩ | ⟨iP, -, -, hlP, -, -, hnames⟩
      · rcases hbad with h | h
        · rw [hfl] at h; cases h
        · rw [hcan'] at h; cases h
      · exact absurd heq hne
      · rw [cn] at hlP hnames
        change s.os.names.lookup (target s.w t) = some iP at hlP
        have hlR : (osRename fl (osClose (statted (Clock.const t) s) s.w.fd) (target s.w t)
            (newPath (dated (Clock.const t) s.w) t)).1.names.lookup
              (newPath (dated (Clock.const t) s.w) t) = some iP := by
          rw [hnames, lookup_cons_self]
        have hlP' : (osRename fl (osClose (statted (Clock.const t) s) s.w.fd) (target s.w t)
            (newPath (dated (Clock.const t) s.w) t)).1.names.lookup (target s.w t) = none := by
          rw [hnames, lookup_cons_ne _ _ _ _ hne, lookup_filter_two, if_pos (Or.inl rfl)]
        have hfresh := lookup_lt_freshIno _ _ _ hlR
        have hdata0 : (osRename fl (osClose (statted (Clock.const t) s) s.w.fd) (target s.w t)
            (newPath (dated (Clock.const t) s.w) t)).1.data = s.os.data := by
          rw [rd, cd]; rfl
        have hRfinal := h3 _ (Ne.symm hne)
        rw [hlR] at hRfinal
        refine ⟨iP, hlP, hRfinal, ?_, ?_⟩
        · by_cases hc : (osWrite fl (prepare (Clock.const t) fl s).os
              (prepare (Clock.const t) fl s).w.fd p).1.names.lookup (target s.w t) = some iP
          · exfalso
            have := h6 hlP' iP hc
            rw [this] at hfresh
            exact lt_irrefl _ hfresh
          · rw [h4 iP hc, hdata0]
        · intro hok
          obtain ⟨i, hl, -, hdata, hfr, -⟩ := h5 hok
          have hi := hfr hlP'
          refine ⟨i, ?_, hl, ?_⟩
          · rw [hi]; exact Nat.ne_of_gt hfresh
          · rw [hdata]
            simp [OS.contentAt, hlP']
  · intro hsz
    have hb : branch (Clock.const t) fl s = .keep := by rw [hbr, if_neg hsz]
    obtain ⟨hp, -, -⟩ := prepare_keep _ fl s hb
    rw [Write_fst_os, Write_fst_w, Write_snd, hp]
    obtain ⟨wl, -, wn, wf, -, wcase⟩ :=
      osWrite_spec fl (statted (Clock.const t) s) s.w.fd p
    refine ⟨?_, rfl, wn, wf, ?_⟩
    · show (osWrite fl (statted (Clock.const t) s) s.w.fd p).1.log = _
      rw [wl, statted_log]
      simp
    · intro hok
      change (osWrite fl (statted (Clock.const t) s) s.w.fd p).2.2 = none at hok
      change (osWrite fl (statted (Clock.const t) s) s.w.fd p).1.data i0 = s.os.data i0 ++ p
        ∧ ∀ j, j ≠ i0 → (osWrite fl (statted (Clock.const t) s) s.w.fd p).1.data j = s.os.data j
      rcases wcase with ⟨-, -, -, h, -⟩ | ⟨i, k, e, -, -, -, h⟩ | ⟨i, hf, -, hdata, hres⟩
      · exact absurd hok h
      · rw [h] at hok; cases hok
      · rw [statted_file, hfile] at hf
        cases hf
        refine ⟨by rw [hdata]; simp; rfl, ?_⟩
        intro j hj
        rw [hdata, Function.update_noteq hj]
        rfl


/-! ## The calendar -/

theorem daysIn_pos (y m : Nat) : 28 ≤ daysIn y m := by
  unfold daysIn
  split_ifs <;> omega

theorem daysIn_le (y m : Nat) : daysIn y m ≤ 31 := by
  unfold daysIn
  split_ifs <;> omega

theorem civilFrom_succ (f : Nat) : ∀ (g y m d : Nat), d < f → d + 1 < g →
    civilFrom g y m (d + 1) = (civilFrom f y m d).next := by
  induction f with
  | zero => intro g y m d h; omega
  | succ f ih =>
    intro g y m d hf hg
    obtain ⟨g, rfl⟩ : ∃ g', g = g' + 1 := ⟨g - 1, by omega⟩
    have hpos := daysIn_pos y m
    unfold civilFrom
    by_cases h1 : d + 1 < daysIn y m
    · have h2 : d < daysIn y m := by omega
      rw [if_pos h1, if_pos h2]
      simp [Date.next, h1]
    · rw [if_neg h1]
      by_cases h2 : d < daysIn y m
      · rw [if_pos h2]
        have h3 : d + 1 - daysIn y m = 0 := by omega
        obtain ⟨g, rfl⟩ : ∃ g', g = g' + 1 := ⟨g - 1, by omega⟩
        rw [h3]
        by_cases hm : m < 12
        · rw [if_pos hm]
          unfold civilFrom
          rw [if_pos (by have := daysIn_pos y (m + 1); omega)]
          simp [Date.next, h1, hm]
        · rw [if_neg hm]
          unfold civilFrom
          rw [if_pos (by have := daysIn_pos (y + 1) 1; omega)]
          simp [Date.next, h1, hm]
      · rw [if_neg h2]
        have h3 : d + 1 - daysIn y m = (d - daysIn y m) + 1 := by omega
        rw [h3]
        by_cases hm : m < 12
        · rw [if_pos hm, if_pos hm]
          exact ih g y (m + 1) _ (by omega) (by omega)
        · rw [if_neg hm, if_neg hm]
          exact ih g (y + 1) 1 _ (by omega) (by omega)

theorem civil_succ (n : Nat) : civil (n + 1) = (civil n).next :=
  civilFrom_succ (n + 1) (n + 2) 1970 1 n (by omega) (by omega)

theorem civil_zero : civil 0 = ⟨1970, 1, 1⟩ := rfl

theorem next_valid (d : Date) (h : d.Valid) : d.next.Valid := by
  obtain ⟨hy, hm1, hm2, hd1, hd2⟩ := h
  unfold Date.next
  by_cases h1 : d.day < daysIn d.year d.month
  · rw [if_pos h1]
    exact ⟨hy, hm1, hm2, by simp, by simpa using h1⟩
  · rw [if_neg h1]
    by_cases h2 : d.month < 12
    · rw [if_pos h2]
      refine ⟨hy, by simp, by simp only; omega, le_refl _, ?_⟩
      have := daysIn_pos d.year (d.month + 1)
      simp only
      omega
    · rw [if_neg h2]
      refine ⟨by simp; omega, le_refl _, by simp, le_refl _, ?_⟩
      have := daysIn_pos (d.year + 1) 1
      simp only
      omega

theorem civil_valid (n : Nat) : (civil n).Valid := by
  induction n with
  | zero =>
    rw [civil_zero]
    exact ⟨le_refl _, le_refl _, by decide, le_refl _, by decide⟩
  | succ n ih =>
    rw [civil_succ]
    exact next_valid _ ih

theorem next_keys (d : Date) (h : d.Valid) :
    d.monthKey ≤ d.next.monthKey ∧ d.dayKey ≤ d.next.dayKey := by
  obtain ⟨hy, hm1, hm2, hd1, hd2⟩ := h
  have hle := daysIn_le d.year d.month
  unfold Date.next Date.monthKey Date.dayKey
  by_cases h1 : d.day < daysIn d.year d.month
  · rw [if_pos h1]
    simp only
    omega
  · rw [if_neg h1]
    by_cases h2 : d.month < 12
    · rw [if_pos h2]
      simp only
      omega
    · rw [if_neg h2]
      simp only
      omega

theorem civil_mono (a b : Nat) (h : a ≤ b) :
    (civil a).monthKey ≤ (civil b).monthKey ∧ (civil a).dayKey ≤ (civil b).dayKey := by
  induction b with
  | zero =>
    have : a = 0 := by omega
    subst this
    exact ⟨le_refl _, le_refl _⟩
  | succ b ih =>
    by_cases hab : a = b + 1
    · subst hab
      exact ⟨le_refl _, le_refl _⟩
    · obtain ⟨i1, i2⟩ := ih (by omega)
      obtain ⟨n1, n2⟩ := next_keys (civil b) (civil_valid b)
      rw [civil_succ]
      exact ⟨le_trans i1 n1, le_trans i2 n2⟩

theorem monthKey_inj (d e : Date) (hd : d.Valid) (he : e.Valid)
    (h : d.monthKey = e.monthKey) : d.year = e.year ∧ d.month = e.month := by
  obtain ⟨-, hm1, hm2, -, -⟩ := hd
  obtain ⟨-, em1, em2, -, -⟩ := he
  unfold Date.monthKey at h
  omega

theorem dayKey_inj (d e : Date) (hd : d.Valid) (he : e.Valid)
    (h : d.dayKey = e.dayKey) : d = e := by
  obtain ⟨-, hm1, hm2, hd1, hd2⟩ := hd
  obtain ⟨-, em1, em2, ed1, ed2⟩ := he
  have h1 := daysIn_le d.year d.month
  have h2 := daysIn_le e.year e.month
  unfold Date.dayKey at h
  have : d.year = e.year ∧ d.month = e.month ∧ d.day = e.day := by omega
  cases d
  cases e
  simp only [Date.mk.injEq]
  exact this

theorem dateOf_valid (t : Time) : (dateOf t).Valid := civil_valid _

theorem dateOf_mono (s t : Time) (h : s ≤ t) :
    (dateOf s).monthKey ≤ (dateOf t).monthKey ∧ (dateOf s).dayKey ≤ (dateOf t).dayKey :=
  civil_mono _ _ (Nat.div_le_div_right h)


/-! ## Decimal rendering -/

theorem digitChar_isDigit (n : Nat) (h : n < 10) : (Nat.digitChar n).isDigit = true := by
  interval_cases n <;> rfl

theorem digitChar_val (n : Nat) (h : n < 10) : (Nat.digitChar n).toNat - 48 = n := by
  interval_cases n <;> rfl

theorem decDigits_isDigit (f : Nat) : ∀ n c, c ∈ decDigits f n → c.isDigit = true := by
  induction f with
  | zero => intro n c h; cases h
  | succ f ih =>
    intro n c h
    unfold decDigits at h
    by_cases h1 : n < 10
    · rw [if_pos h1] at h
      rw [List.mem_singleton.mp h]
      exact digitChar_isDigit n h1
    · rw [if_neg h1] at h
      rcases List.mem_append.mp h with h | h
      · exact ih _ _ h
      · rw [List.mem_singleton.mp h]
        exact digitChar_isDigit _ (Nat.mod_lt _ (by decide))

theorem itoa_isDigit (n : Nat) (c : Char) (h : c ∈ itoa n) : c.isDigit = true :=
  decDigits_isDigit _ _ _ h

theorem pad_isDigit (w n : Nat) (c : Char) (h : c ∈ pad w n) : c.isDigit = true := by
  unfold pad at h
  rcases List.mem_append.mp h with h | h
  · rw [(List.mem_replicate.mp h).2]
    rfl
  · exact itoa_isDigit n c h

theorem pad_length_ge (w n : Nat) : w ≤ (pad w n).length := by
  unfold pad
  simp only [List.length_append, List.length_replicate]
  omega

theorem itoa_length_small (n : Nat) (h : n < 100) : 1 ≤ (itoa n).length ∧ (itoa n).length ≤ 2 := by
  unfold itoa decDigits
  by_cases h1 : n < 10
  · rw [if_pos h1]
    simp
  · rw [if_neg h1]
    obtain ⟨k, rfl⟩ : ∃ k, n = k + 1 := ⟨n - 1, by omega⟩
    unfold decDigits
    rw [if_pos (by omega)]
    simp

theorem pad_two_length (n : Nat) (h : n < 100) : (pad 2 n).length = 2 := by
  obtain ⟨h1, h2⟩ := itoa_length_small n h
  unfold pad
  simp only [List.length_append, List.length_replicate]
  omega

theorem atoi_append (l : List Char) (c : Char) :
    atoi (l ++ [c]) = 10 * atoi l + (c.toNat - 48) := by
  simp [atoi, List.foldl_append]

theorem atoi_decDigits (f : Nat) : ∀ n, n < f → atoi (decDigits f n) = n := by
  induction f with
  | zero => intro n h; omega
  | succ f ih =>
    intro n h
    unfold decDigits
    by_cases h1 : n < 10
    · rw [if_pos h1]
      simp [atoi, digitChar_val n h1]
    · rw [if_neg h1, atoi_append, ih (n / 10) (by omega),
        digitChar_val (n % 10) (Nat.mod_lt _ (by decide))]
      omega

theorem atoi_zeros (k : Nat) (l : List Char) : atoi (List.replicate k '0' ++ l) = atoi l := by
  induction k with
  | zero => simp
  | succ k ih =>
    have h0 : atoi (List.replicate (k + 1) '0' ++ l)
        = List.foldl (fun a c => 10 * a + (c.toNat - 48)) 0 (List.replicate k '0' ++ l) := by
      simp [atoi, List.replicate_succ]
    rw [h0]
    exact ih

theorem atoi_pad (w n : Nat) : atoi (pad w n) = n := by
  unfold pad
  rw [atoi_zeros]
  exact atoi_decDigits _ _ (Nat.lt_succ_self n)

theorem pad_inj (w n m : Nat) (h : pad w n = pad w m) : n = m := by
  rw [← atoi_pad w n, ← atoi_pad w m, h]

/-! ## The layouts of `New` -/

theorem Format_month (t : Time) :
    Format "200601" t = String.mk (pad 4 (dateOf t).year ++ pad 2 (dateOf t).month) := by
  simp [Format, formatAux]

theorem Format_day (t : Time) : Format "02" t = String.mk (pad 2 (dateOf t).day) := by
  simp [Format, formatAux]

theorem Format_month_inj (s t : Time) (h : Format "200601" s = Format "200601" t) :
    (dateOf s).monthKey = (dateOf t).monthKey := by
  rw [Format_month, Format_month] at h
  have h' : pad 4 (dateOf s).year ++ pad 2 (dateOf s).month
      = pad 4 (dateOf t).year ++ pad 2 (dateOf t).month := congrArg String.data h
  obtain ⟨-, -, s2, -, -⟩ := dateOf_valid s
  obtain ⟨-, -, t2, -, -⟩ := dateOf_valid t
  have hl : (pad 2 (dateOf s).month).length = (pad 2 (dateOf t).month).length := by
    rw [pad_two_length _ (by omega), pad_two_length _ (by omega)]
  obtain ⟨e1, e2⟩ := List.append_inj' h' hl
  unfold Date.monthKey
  rw [pad_inj _ _ _ e1, pad_inj _ _ _ e2]

theorem Format_day_inj (s t : Time) (h : Format "02" s = Format "02" t) :
    (dateOf s).day = (dateOf t).day := by
  rw [Format_day, Format_day] at h
  exact pad_inj _ _ _ (congrArg String.data h)

/-- Between two instants of one month every instant is of that month. -/
theorem month_convex (s t u : Time) (hst : s ≤ t) (htu : t ≤ u)
    (h : Format "200601" s = Format "200601" u) : Format "200601" t = Format "200601" s := by
  have h1 := (dateOf_mono s t hst).1
  have h2 := (dateOf_mono t u htu).1
  have h3 := Format_month_inj s u h
  obtain ⟨e1, e2⟩ := monthKey_inj _ _ (dateOf_valid t) (dateOf_valid s) (by omega)
  rw [Format_month, Format_month, e1, e2]

/-- Between two instants of one day every instant is of that day. -/
theorem day_convex (s t u : Time) (hst : s ≤ t) (htu : t ≤ u)
    (hm : Format "200601" s = Format "200601" u) (hd : Format "02" s = Format "02" u) :
    Format "02" t = Format "02" s := by
  have h1 := (dateOf_mono s t hst).2
  have h2 := (dateOf_mono t u htu).2
  have h3 := Format_month_inj s u hm
  have h4 := Format_day_inj s u hd
  have h5 : (dateOf s).dayKey = (dateOf u).dayKey := by
    unfold Date.dayKey
    unfold Date.monthKey at h3
    rw [h3, h4]
  have h6 : dateOf t = dateOf s :=
    dayKey_inj _ _ (dateOf_valid t) (dateOf_valid s) (by omega)
  rw [Format_day, Format_day, h6]


/-! ## Joining plain names -/

theorem splitSlash_plain (s : String) (h : '/' ∉ s.toList) : splitSlash s = [s] := by
  unfold splitSlash List.splitOn
  rw [List.splitOnP_eq_single]
  · rfl
  · intro c hc
    simp only [beq_iff_eq]
    intro hce
    exact h (hce ▸ hc)

theorem cleanPush_plain (st : List String) (s : String) (h : Plain s) :
    (splitSlash s).foldl cleanPush st = s :: st := by
  obtain ⟨h0, h1, h2, h3⟩ := h
  rw [splitSlash_plain s h0]
  simp [cleanPush, h1, h2, h3]

theorem Join_two (b d : String) (hd : Plain d) : Join [b, d] = Join [b] ++ [d] := by
  unfold Join
  simp only [List.foldl_cons, List.foldl_nil]
  rw [cleanPush_plain _ d hd]
  simp

theorem Join_three (b d n : String) (hd : Plain d) (hn : Plain n) :
    Join [b, d, n] = Join [b] ++ [d, n] := by
  unfold Join
  simp only [List.foldl_cons, List.foldl_nil]
  rw [cleanPush_plain _ d hd, cleanPush_plain _ n hn]
  simp

theorem plain_of_chars (s : String) (h1 : '/' ∉ s.toList) (h2 : 3 ≤ s.toList.length) :
    Plain s := by
  refine ⟨h1, ?_, ?_, ?_⟩ <;>
  · intro h
    rw [h] at h2
    revert h2
    decide

theorem slash_not_digit (c : Char) (h : c.isDigit = true) : c ≠ '/' := by
  intro hc
  rw [hc] at h
  revert h
  decide

theorem underscore_not_digit (c : Char) (h : c.isDigit = true) : c ≠ '_' := by
  intro hc
  rw [hc] at h
  revert h
  decide

theorem plain_month (t : Time) : Plain (Format "200601" t) := by
  rw [Format_month]
  apply plain_of_chars
  · intro h
    rcases List.mem_append.mp h with h | h
    · exact slash_not_digit _ (pad_isDigit _ _ _ h) rfl
    · exact slash_not_digit _ (pad_isDigit _ _ _ h) rfl
  · have := pad_length_ge 4 (dateOf t).year
    simp only [String.toList, List.length_append]
    omega

theorem day_chars (t : Time) : (Format "02" t).toList = pad 2 (dateOf t).day := by
  rw [Format_day]
  rfl

theorem plain_dayFile (t : Time) : Plain (Format "02" t ++ ".log") := by
  apply plain_of_chars
  · intro h
    rw [String.toList, String.data_append] at h
    rcases List.mem_append.mp h with h | h
    · have h' : '/' ∈ pad 2 (dateOf t).day := by rw [← day_chars]; exact h
      exact slash_not_digit _ (pad_isDigit _ _ _ h') rfl
    · revert h
      decide
  · rw [String.toList, String.data_append, List.length_append]
    have : (".log" : String).data.length = 4 := by decide
    omega

theorem plain_rotated (t u : Time) :
    Plain (Format "02" t ++ "_" ++ String.mk (itoa (Unix u)) ++ ".log") := by
  apply plain_of_chars
  · intro h
    simp only [String.toList, String.data_append] at h
    rcases List.mem_append.mp h with h | h
    · rcases List.mem_append.mp h with h | h
      · rcases List.mem_append.mp h with h | h
        · have h' : '/' ∈ pad 2 (dateOf t).day := by rw [← day_chars]; exact h
          exact slash_not_digit _ (pad_isDigit _ _ _ h') rfl
        · revert h
          decide
      · exact slash_not_digit _ (itoa_isDigit _ _ h) rfl
    · revert h
      decide
  · simp only [String.toList, String.data_append, List.length_append, List.length_cons,
      List.length_nil]
    omega

theorem dayFile_no_underscore (t : Time) : '_' ∉ (Format "02" t ++ ".log").toList := by
  intro h
  rw [String.toList, String.data_append] at h
  rcases List.mem_append.mp h with h | h
  · have h' : '_' ∈ pad 2 (dateOf t).day := by rw [← day_chars]; exact h
    exact underscore_not_digit _ (pad_isDigit _ _ _ h') rfl
  · revert h
    decide

theorem rotatedName_underscore (ext stem : String) (u : Nat) :
    '_' ∈ (stem ++ "_" ++ String.mk (itoa u) ++ ext).toList := by
  simp only [String.toList, String.data_append]
  apply List.mem_append_left
  apply List.mem_append_left
  apply List.mem_append_right
  decide

theorem dayFile_inj (s t : Time) (h : Format "02" s ++ ".log" = Format "02" t ++ ".log") :
    Format "02" s = Format "02" t := by
  have h' := congrArg String.data h
  rw [String.data_append, String.data_append] at h'
  have := List.append_cancel_right h'
  exact String.ext this


/-! ## Calls without faults, step by step -/

theorem osMkdirAll_ok (os : OS) (p : Path) (h : ∀ q ∈ p.inits, os.isFile q = false) :
    (osMkdirAll Faults.none os p).1.dirs = p.inits ++ os.dirs := by
  unfold osMkdirAll
  have h1 : ¬ (Faults.none.mkdirAll = true ∨ (p.inits.any fun q => os.isFile q) = true) := by
    intro hc
    rcases hc with hc | hc
    · cases hc
    · obtain ⟨q, hq, hf⟩ := List.any_eq_true.mp hc
      rw [h q hq] at hf
      cases hf
  rw [if_neg h1]

/-- The state after `openFile` created a file and the append wrote `p` to it. -/
theorem create_and_write (t : Time) (s : State) (p : Bytes)
    (hnd : s.os.isDir (openPath (Clock.const t) s) = false)
    (hnf : s.os.names.lookup (openPath (Clock.const t) s) = none)
    (hpar : s.os.isDir (openPath (Clock.const t) s).dropLast = true) :
    (openFile (Clock.const t) Faults.none s).w.fd = some s.os.nextFd
    ∧ (osWrite Faults.none (openFile (Clock.const t) Faults.none s).os
        (openFile (Clock.const t) Faults.none s).w.fd p).1.names
        = (openPath (Clock.const t) s, s.os.freshIno) :: s.os.names
    ∧ (osWrite Faults.none (openFile (Clock.const t) Faults.none s).os
        (openFile (Clock.const t) Faults.none s).w.fd p).1.fds
        = (s.os.nextFd, s.os.freshIno) :: s.os.fds
    ∧ (osWrite Faults.none (openFile (Clock.const t) Faults.none s).os
        (openFile (Clock.const t) Faults.none s).w.fd p).1.dirs = s.os.dirs
    ∧ (osWrite Faults.none (openFile (Clock.const t) Faults.none s).os
        (openFile (Clock.const t) Faults.none s).w.fd p).1.data s.os.freshIno = p
    ∧ (∀ j, j ≠ s.os.freshIno →
        (osWrite Faults.none (openFile (Clock.const t) Faults.none s).os
          (openFile (Clock.const t) Faults.none s).w.fd p).1.data j = s.os.data j)
    ∧ (osWrite Faults.none (openFile (Clock.const t) Faults.none s).os
        (openFile (Clock.const t) Faults.none s).w.fd p).2 = (p.length, none) := by
  rw [openFile_os, openFile_fd]
  obtain ⟨-, od, ocase⟩ := osOpenFile_spec Faults.none s.os (openPath (Clock.const t) s)
  rcases ocase with ⟨-, -, -, -, -, hbad⟩ | ⟨i, hl, -⟩ | ⟨-, hfd, hn, hdt, hfds, -⟩
  · exfalso
    rcases hbad with h | h | ⟨-, h⟩
    · cases h
    · rw [hnd] at h; cases h
    · rw [hpar] at h; cases h
  · rw [hnf] at hl; cases hl
  · obtain ⟨-, wd, wn, wf, -, wcase⟩ := osWrite_spec Faults.none
      (osOpenFile Faults.none s.os (openPath (Clock.const t) s)).1
      (osOpenFile Faults.none s.os (openPath (Clock.const t) s)).2 p
    have hfile : (osOpenFile Faults.none s.os (openPath (Clock.const t) s)).1.file
        (osOpenFile Faults.none s.os (openPath (Clock.const t) s)).2 = some s.os.freshIno := by
      rw [hfd]
      show Option.bind (some s.os.nextFd) (fun h =>
        (osOpenFile Faults.none s.os (openPath (Clock.const t) s)).1.fds.lookup h) = _
      rw [hfds]
      exact lookup_cons_self _ _ _
    rcases wcase with ⟨h, -⟩ | ⟨i, k, e, -, h, -⟩ | ⟨i, hf, -, hdata, hres⟩
    · rw [hfile] at h; cases h
    · cases h
    · rw [hfile] at hf
      cases hf
      refine ⟨hfd, by rw [wn, hn], by rw [wf, hfds], by rw [wd, od], ?_, ?_, hres⟩
      · rw [hdata, hdt]
        simp
      · intro j hj
        rw [hdata, hdt, Function.update_noteq hj, Function.update_noteq hj]

theorem branch_newDir_of (clk : Clock) (s : State)
    (h1 : s.os.isDir (dirPath clk s.w) = false) (h2 : s.os.isFile (dirPath clk s.w) = false)
    (h3 : ∀ q ∈ (dirPath clk s.w).inits, s.os.isFile q = false) :
    branch clk Faults.none s = .newDir := by
  unfold branch
  have h4 : ((dirPath clk s.w).inits.any fun q => s.os.isFile q) = false := by
    rw [List.any_eq_false]
    intro q hq
    rw [h3 q hq]
    simp
  have : (osStat Faults.none s.os (dirPath clk s.w)).2 = .notExist := by
    unfold osStat
    simp [Faults.none, h1, h2, h4]
  rw [if_pos this]


/-! ## The paths of the layout of `New` -/

theorem dirPath_layout (b : String) (m : Int) (w : zWriter) (t : Time) (h : Layout b m w) :
    dirPath (Clock.const t) w = dayDir b t := by
  obtain ⟨h1, h2, -⟩ := h
  unfold dirPath dayDir
  rw [h1, h2]
  exact Join_two b _ (plain_month t)

theorem target_layout (b : String) (m : Int) (w : zWriter) (t : Time) (h : Layout b m w) :
    target w t = dayFile b t := by
  obtain ⟨h1, h2, h3, h4, -⟩ := h
  unfold target dayFile
  rw [h1, h2, h3, h4]
  exact Join_three b _ _ (plain_month t) (plain_dayFile t)

theorem newPath_layout (b : String) (m : Int) (w : zWriter) (t u : Time) (h : Layout b m w)
    (hf : w.fileName = Format "02" t) :
    newPath (dated (Clock.const t) w) u = rotFile b t u := by
  obtain ⟨h1, h2, h3, h4, -⟩ := h
  unfold newPath rotFile dated
  simp only [h1, h2, h4, hf]
  exact Join_three b _ _ (plain_month t) (plain_rotated t u)

theorem dayFile_dropLast (b : String) (t : Time) : (dayFile b t).dropLast = dayDir b t := by
  unfold dayFile dayDir
  rw [show [Format "200601" t, Format "02" t ++ ".log"]
      = [Format "200601" t] ++ [Format "02" t ++ ".log"] from rfl, ← List.append_assoc,
    List.dropLast_concat]

theorem rotFile_dropLast (b : String) (t u : Time) : (rotFile b t u).dropLast = dayDir b t := by
  unfold rotFile dayDir
  rw [show [Format "200601" t, Format "02" t ++ "_" ++ String.mk (itoa (Unix u)) ++ ".log"]
      = [Format "200601" t] ++ [Format "02" t ++ "_" ++ String.mk (itoa (Unix u)) ++ ".log"]
      from rfl, ← List.append_assoc, List.dropLast_concat]

theorem dayDir_length (b : String) (t : Time) : (dayDir b t).length = (Join [b]).length + 1 := by
  simp [dayDir]

theorem dayFile_length (b : String) (t : Time) :
    (dayFile b t).length = (Join [b]).length + 2 := by
  simp [dayFile]

theorem rotFile_length (b : String) (t u : Time) :
    (rotFile b t u).length = (Join [b]).length + 2 := by
  simp [rotFile]

theorem dayDir_inj (b : String) (s t : Time) (h : dayDir b s = dayDir b t) :
    Format "200601" s = Format "200601" t := by
  unfold dayDir at h
  have := List.append_cancel_left h
  exact List.singleton_inj.mp this

theorem dayFile_inj_month (b : String) (s t : Time) (h : dayFile b s = dayFile b t) :
    Format "200601" s = Format "200601" t ∧ Format "02" s = Format "02" t := by
  unfold dayFile at h
  have h' := List.append_cancel_left h
  simp only [List.cons.injEq, and_true] at h'
  exact ⟨h'.1, dayFile_inj s t h'.2⟩

theorem dayFile_ne_rotFile (b : String) (s t u : Time) : dayFile b s ≠ rotFile b t u := by
  intro h
  unfold dayFile rotFile at h
  have h' := List.append_cancel_left h
  simp only [List.cons.injEq, and_true] at h'
  have h1 := dayFile_no_underscore s
  rw [h'.2] at h1
  exact h1 (rotatedName_underscore ".log" (Format "02" t) (Unix u))

theorem dayFile_getLast (b : String) (t : Time) :
    (dayFile b t).getLast? = some (Format "02" t ++ ".log") := by
  unfold dayFile
  rw [show [Format "200601" t, Format "02" t ++ ".log"]
      = [Format "200601" t] ++ [Format "02" t ++ ".log"] from rfl, ← List.append_assoc,
    List.getLast?_concat]

theorem dayFile_not_rotated (b : String) (t : Time) (n : String)
    (h : (dayFile b t).getLast? = some n) : ¬ RotatedName ".log" n := by
  rw [dayFile_getLast] at h
  cases h
  rintro ⟨stem, u, he⟩
  have h1 := dayFile_no_underscore t
  rw [he] at h1
  exact h1 (rotatedName_underscore ".log" stem u)

theorem mem_inits_dayDir (b : String) (t : Time) (q : Path) (h : q ∈ (dayDir b t).inits) :
    q <+: Join [b] ∨ q = dayDir b t := by
  rw [List.mem_inits] at h
  unfold dayDir at h ⊢
  rcases List.prefix_concat_iff.mp h with h | h
  · exact Or.inr h
  · exact Or.inl h

theorem dayDir_mem_inits (b : String) (t : Time) : dayDir b t ∈ (dayDir b t).inits := by
  rw [List.mem_inits]


/-! ## The disk invariant -/

theorem disk_dir_length (b : String) (m : Int) (cur : Time) (L : Nat) (os : OS)
    (h : Disk b m cur L os) (d : Path) (hd : d ∈ os.dirs) :
    d.length ≤ (Join [b]).length + 1 := by
  rcases h.1 d hd with hp | ⟨s, -, rfl⟩
  · exact le_trans hp.length_le (Nat.le_succ _)
  · rw [dayDir_length]

theorem disk_file_length (b : String) (m : Int) (cur : Time) (L : Nat) (os : OS)
    (h : Disk b m cur L os) (q : Path) (i : Ino) (hq : os.names.lookup q = some i) :
    q.length = (Join [b]).length + 2 := by
  obtain ⟨s, -, -, -, hcase⟩ := h.2.1 q i hq
  rcases hcase with rfl | ⟨u, rfl, -⟩
  · exact dayFile_length b s
  · exact rotFile_length b s u

theorem disk_not_dir (b : String) (m : Int) (cur : Time) (L : Nat) (os : OS)
    (h : Disk b m cur L os) (q : Path) (hq : q.length = (Join [b]).length + 2) :
    os.isDir q = false := by
  unfold OS.isDir
  have h1 : q ≠ [] := by
    intro hc
    rw [hc] at hq
    simp at hq
  have h2 : q ∉ os.dirs := by
    intro hc
    have := disk_dir_length b m cur L os h q hc
    omega
  simp [h1, h2]

theorem disk_not_file (b : String) (m : Int) (cur : Time) (L : Nat) (os : OS)
    (h : Disk b m cur L os) (q : Path) (hq : q.length ≤ (Join [b]).length + 1) :
    os.isFile q = false := by
  unfold OS.isFile
  cases hl : os.names.lookup q with
  | none => rfl
  | some i =>
    have := disk_file_length b m cur L os h q i hl
    omega

theorem disk_mono (b : String) (m : Int) (cur t : Time) (L L' : Nat) (os : OS)
    (h : Disk b m cur L os) (ht : cur ≤ t) (hL : L ≤ L') : Disk b m t L' os := by
  obtain ⟨h1, h2, h3⟩ := h
  refine ⟨?_, ?_, h3⟩
  · intro d hd
    rcases h1 d hd with hp | ⟨s, hs, rfl⟩
    · exact Or.inl hp
    · exact Or.inr ⟨s, le_trans hs ht, rfl⟩
  · intro q i hq
    obtain ⟨s, hs, hdir, hsz, hcase⟩ := h2 q i hq
    refine ⟨s, le_trans hs ht, hdir, ?_, hcase⟩
    have : (L : Int) ≤ L' := by exact_mod_cast hL
    omega

theorem disk_dirs (b : String) (m : Int) (t : Time) (L : Nat) (os os' : OS)
    (h : Disk b m t L os) (hn : os'.names = os.names) (hd : os'.data = os.data)
    (hdirs : os'.dirs = (dayDir b t).inits ++ os.dirs) : Disk b m t L os' := by
  obtain ⟨h1, h2, h3⟩ := h
  refine ⟨?_, ?_, ?_⟩
  · intro d hd'
    rw [hdirs] at hd'
    rcases List.mem_append.mp hd' with hi | ho
    · rcases mem_inits_dayDir b t d hi with hp | rfl
      · exact Or.inl hp
      · exact Or.inr ⟨t, le_refl _, rfl⟩
    · exact h1 d ho
  · intro q i hq
    rw [hn] at hq
    obtain ⟨s, hs, hdir, hsz, hcase⟩ := h2 q i hq
    refine ⟨s, hs, ?_, ?_, ?_⟩
    · rw [hdirs]
      exact List.mem_append_right _ hdir
    · rw [hd]; exact hsz
    · rw [hd]; exact hcase
  · intro q q' i hq hq'
    rw [hn] at hq hq'
    exact h3 q q' i hq hq'

theorem disk_append (b : String) (m : Int) (cur : Time) (L : Nat) (os os' : OS) (i : Ino)
    (p : Bytes) (h : Disk b m cur L os) (hi : os.names.lookup (dayFile b cur) = some i)
    (hsz : ((os.data i).length : Int) ≤ m) (hn : os'.names = os.names)
    (hdirs : os'.dirs = os.dirs) (hdi : os'.data i = os.data i ++ p)
    (hdj : ∀ j, j ≠ i → os'.data j = os.data j) : Disk b m cur (max L p.length) os' := by
  obtain ⟨h1, h2, h3⟩ := h
  refine ⟨?_, ?_, ?_⟩
  · intro d hd
    rw [hdirs] at hd
    exact h1 d hd
  · intro q j hq
    rw [hn] at hq
    obtain ⟨s, hs, hdir, hszj, hcase⟩ := h2 q j hq
    by_cases hji : j = i
    · subst hji
      have hqe : q = dayFile b cur := h3 q _ j hq hi
      refine ⟨s, hs, by rw [hdirs]; exact hdir, ?_, ?_⟩
      · rw [hdi, List.length_append]
        have : (p.length : Int) ≤ (max L p.length : Nat) := by exact_mod_cast le_max_right _ _
        push_cast at this ⊢
        omega
      · rcases hcase with hc | ⟨u, hc, -⟩
        · exact Or.inl hc
        · rw [hqe] at hc
          exact absurd hc (dayFile_ne_rotFile b cur s u)
    · refine ⟨s, hs, by rw [hdirs]; exact hdir, ?_, ?_⟩
      · rw [hdj j hji]
        have : (L : Int) ≤ (max L p.length : Nat) := by exact_mod_cast le_max_left _ _
        push_cast at this ⊢
        omega
      · rw [hdj j hji]; exact hcase
  · intro q q' j hq hq'
    rw [hn] at hq hq'
    exact h3 q q' j hq hq'

theorem disk_create (b : String) (m : Int) (t : Time) (L : Nat) (os os' : OS) (fr : Ino)
    (p : Bytes) (h : Disk b m t L os) (hm : 0 ≤ m) (hdir : dayDir b t ∈ os.dirs)
    (hfr : ∀ q j, os.names.lookup q = some j → j ≠ fr)
    (hn : os'.names = (dayFile b t, fr) :: os.names) (hdirs : os'.dirs = os.dirs)
    (hdi : os'.data fr = p) (hdj : ∀ j, j ≠ fr → os'.data j = os.data j) :
    Disk b m t (max L p.length) os' := by
  obtain ⟨h1, h2, h3⟩ := h
  refine ⟨?_, ?_, ?_⟩
  · intro d hd
    rw [hdirs] at hd
    exact h1 d hd
  · intro q j hq
    rw [hn] at hq
    by_cases hqe : q = dayFile b t
    · subst hqe
      rw [lookup_cons_self] at hq
      cases hq
      refine ⟨t, le_refl _, by rw [hdirs]; exact hdir, ?_, Or.inl rfl⟩
      rw [hdi]
      have : (p.length : Int) ≤ (max L p.length : Nat) := by exact_mod_cast le_max_right _ _
      push_cast at this ⊢
      omega
    · rw [lookup_cons_ne _ _ _ _ hqe] at hq
      obtain ⟨s, hs, hdir', hszj, hcase⟩ := h2 q j hq
      have hj := hfr q j hq
      refine ⟨s, hs, by rw [hdirs]; exact hdir', ?_, ?_⟩
      · rw [hdj j hj]
        have : (L : Int) ≤ (max L p.length : Nat) := by exact_mod_cast le_max_left _ _
        push_cast at this ⊢
        omega
      · rw [hdj j hj]; exact hcase
  · intro q q' j hq hq'
    rw [hn] at hq hq'
    by_cases hqe : q = dayFile b t
    · by_cases hqe' : q' = dayFile b t
      · rw [hqe, hqe']
      · subst hqe
        rw [lookup_cons_self] at hq
        rw [lookup_cons_ne _ _ _ _ hqe'] at hq'
        cases hq
        exact absurd rfl (hfr q' _ hq')
    · rw [lookup_cons_ne _ _ _ _ hqe] at hq
      by_cases hqe' : q' = dayFile b t
      · subst hqe'
        rw [lookup_cons_self] at hq'
        cases hq'
        exact absurd rfl (hfr q _ hq)
      · rw [lookup_cons_ne _ _ _ _ hqe'] at hq'
        exact h3 q q' j hq hq'

theorem disk_rename (b : String) (m : Int) (t u : Time) (L : Nat) (os os' : OS) (i : Ino)
    (h : Disk b m t L os) (hdir : dayDir b t ∈ os.dirs)
    (hi : os.names.lookup (dayFile b t) = some i) (hsz : m < ((os.data i).length : Int))
    (hn : os'.names = (rotFile b t u, i) ::
      os.names.filter (fun e => e.1 ≠ dayFile b t ∧ e.1 ≠ rotFile b t u))
    (hdirs : os'.dirs = os.dirs) (hd : os'.data = os.data) :
    Disk b m t L os' ∧ os'.names.lookup (dayFile b t) = none := by
  obtain ⟨h1, h2, h3⟩ := h
  have hlook : ∀ q, os'.names.lookup q = if q = rotFile b t u then some i
      else if q = dayFile b t then none else os.names.lookup q := by
    intro q
    rw [hn]
    by_cases hq : q = rotFile b t u
    · subst hq
      rw [lookup_cons_self, if_pos rfl]
    · rw [lookup_cons_ne _ _ _ _ hq, lookup_filter_two, if_neg hq]
      by_cases hq' : q = dayFile b t
      · rw [if_pos (Or.inl hq'), if_pos hq']
      · rw [if_neg (by tauto), if_neg hq']
  refine ⟨⟨?_, ?_, ?_⟩, ?_⟩
  · intro d hd'
    rw [hdirs] at hd'
    exact h1 d hd'
  · intro q j hq
    rw [hlook] at hq
    by_cases hqr : q = rotFile b t u
    · rw [if_pos hqr] at hq
      cases hq
      obtain ⟨s, -, -, hszj, -⟩ := h2 _ _ hi
      refine ⟨t, le_refl _, by rw [hdirs]; exact hdir, by rw [hd]; exact hszj, ?_⟩
      exact Or.inr ⟨u, hqr, by rw [hd]; exact hsz⟩
    · rw [if_neg hqr] at hq
      by_cases hqd : q = dayFile b t
      · rw [if_pos hqd] at hq; cases hq
      · rw [if_neg hqd] at hq
        obtain ⟨s, hs, hdir', hszj, hcase⟩ := h2 q j hq
        exact ⟨s, hs, by rw [hdirs]; exact hdir', by rw [hd]; exact hszj, by rw [hd]; exact hcase⟩
  · intro q q' j hq hq'
    rw [hlook] at hq hq'
    by_cases hqr : q = rotFile b t u
    · rw [if_pos hqr] at hq
      cases hq
      by_cases hqr' : q' = rotFile b t u
      · rw [hqr, hqr']
      · rw [if_neg hqr'] at hq'
        by_cases hqd' : q' = dayFile b t
        · rw [if_pos hqd'] at hq'; cases hq'
        · rw [if_neg hqd'] at hq'
          exact absurd (h3 q' _ _ hq' hi) hqd'
    · rw [if_neg hqr] at hq
      by_cases hqd : q = dayFile b t
      · rw [if_pos hqd] at hq; cases hq
      · rw [if_neg hqd] at hq
        by_cases hqr' : q' = rotFile b t u
        · rw [if_pos hqr'] at hq'
          cases hq'
          exact absurd (h3 q _ _ hq hi) hqd
        · rw [if_neg hqr'] at hq'
          by_cases hqd' : q' = dayFile b t
          · rw [if_pos hqd'] at hq'; cases hq'
          · rw [if_neg hqd'] at hq'
            exact h3 q q' j hq hq'
  · rw [hlook, if_neg (dayFile_ne_rotFile b t t u), if_pos rfl]


/-! ## One call preserves the invariant -/

theorem disk_congr (b : String) (m : Int) (t : Time) (L : Nat) (os os' : OS)
    (h : Disk b m t L os) (hn : os'.names = os.names) (hdirs : os'.dirs = os.dirs)
    (hd : os'.data = os.data) : Disk b m t L os' := by
  unfold Disk at h ⊢
  rw [hn, hdirs, hd]
  exact h

theorem dayDir_ne_nil (b : String) (t : Time) : dayDir b t ≠ [] := by
  intro h
  have := dayDir_length b t
  rw [h] at this
  simp at this

theorem disk_no_dayFile (b : String) (m : Int) (cur t : Time) (L : Nat) (os : OS)
    (h : Disk b m cur L os) (hnew : dayDir b t ∉ os.dirs) :
    os.names.lookup (dayFile b t) = none := by
  cases hl : os.names.lookup (dayFile b t) with
  | none => rfl
  | some i =>
    exfalso
    obtain ⟨s, -, hdir, -, hcase⟩ := h.2.1 _ i hl
    rcases hcase with hc | ⟨u, hc, -⟩
    · have := (dayFile_inj_month b t s hc).1
      apply hnew
      unfold dayDir at hdir ⊢
      rw [this]
      exact hdir
    · exact dayFile_ne_rotFile b t s u hc

theorem step_newDir (b : String) (m : Int) (cur t : Time) (L : Nat) (s : State) (p : Bytes)
    (hl : Layout b m s.w) (hd : Disk b m cur L s.os) (ht : cur ≤ t) (hm : 0 ≤ m)
    (hnew : dayDir b t ∉ s.os.dirs) :
    Active b m t (Write (Clock.const t) Faults.none s p).1
    ∧ Disk b m t (max L p.length) (Write (Clock.const t) Faults.none s p).1.os
    ∧ ∃ fr, (Write (Clock.const t) Faults.none s p).1.os.names
          = (dayFile b t, fr) :: s.os.names
        ∧ (Write (Clock.const t) Faults.none s p).1.os.data fr = p
        ∧ ∀ j, j ≠ fr → (Write (Clock.const t) Faults.none s p).1.os.data j = s.os.data j := by
  have hdp := dirPath_layout b m s.w t hl
  have hb : branch (Clock.const t) Faults.none s = .newDir := by
    apply branch_newDir_of
    · rw [hdp]
      unfold OS.isDir
      simp [dayDir_ne_nil, hnew]
    · rw [hdp]
      exact disk_not_file b m cur L s.os hd _ (by rw [dayDir_length])
    · rw [hdp]
      intro q hq
      apply disk_not_file b m cur L s.os hd q
      have h2 := ((List.mem_inits _ _).mp hq).length_le
      rw [dayDir_length] at h2
      exact h2
  have hp := prepare_newDir _ _ s hb
  rw [hdp] at hp
  obtain ⟨-, mn, mdata, mfds, -⟩ := osMkdirAll_spec Faults.none
    (s.os.record (.stat (dayDir b t))) (dayDir b t)
  have mdirs := osMkdirAll_ok (s.os.record (.stat (dayDir b t))) (dayDir b t) (by
    intro q hq
    apply disk_not_file b m cur L s.os hd q
    have := (List.mem_inits _ _).mp hq
    have h2 := this.length_le
    rw [dayDir_length] at h2
    exact h2)
  have hd0 : Disk b m t L
      (osMkdirAll Faults.none (s.os.record (.stat (dayDir b t))) (dayDir b t)).1 :=
    disk_dirs b m t L s.os _ (disk_mono b m cur t L L s.os hd ht (le_refl _)) mn mdata mdirs
  have hop : openPath (Clock.const t) ⟨dated (Clock.const t) s.w,
      (osMkdirAll Faults.none (s.os.record (.stat (dayDir b t))) (dayDir b t)).1⟩
      = dayFile b t := by
    rw [openPath_of_dated t _ s.w rfl, target_layout b m s.w t hl]
  have hdirmem : dayDir b t ∈
      (osMkdirAll Faults.none (s.os.record (.stat (dayDir b t))) (dayDir b t)).1.dirs := by
    rw [mdirs]
    exact List.mem_append_left _ (dayDir_mem_inits b t)
  have hnone : (osMkdirAll Faults.none (s.os.record (.stat (dayDir b t)))
      (dayDir b t)).1.names.lookup (dayFile b t) = none := by
    rw [mn]
    exact disk_no_dayFile b m cur t L s.os hd hnew
  obtain ⟨cfd, cn, cfds, cdirs, cdi, cdj, -⟩ := create_and_write t
    ⟨dated (Clock.const t) s.w,
      (osMkdirAll Faults.none (s.os.record (.stat (dayDir b t))) (dayDir b t)).1⟩ p
    (by rw [hop]; exact disk_not_dir b m t L _ hd0 _ (dayFile_length b t))
    (by rw [hop]; exact hnone)
    (by
      rw [hop, dayFile_dropLast]
      unfold OS.isDir
      simp [hdirmem])
  rw [← hp] at cfd cn cfds cdirs cdi cdj
  rw [hop] at cn
  dsimp only at cfd cn cfds cdirs cdi cdj
  have hfr : ∀ q j, (osMkdirAll Faults.none (s.os.record (.stat (dayDir b t)))
      (dayDir b t)).1.names.lookup q = some j →
      j ≠ (osMkdirAll Faults.none (s.os.record (.stat (dayDir b t))) (dayDir b t)).1.freshIno :=
    fun q j hq => Nat.ne_of_lt (lookup_lt_freshIno _ q j hq)
  refine ⟨⟨?_, ?_, ?_, ?_, ?_⟩, ?_, ?_⟩
  rotate_right 1
  · refine ⟨(osMkdirAll Faults.none (s.os.record (.stat (dayDir b t)))
      (dayDir b t)).1.freshIno, ?_, ?_, ?_⟩
    · rw [Write_fst_os, cn, mn]
      rfl
    · rw [Write_fst_os]
      exact cdi
    · intro j hj
      rw [Write_fst_os, cdj j hj, mdata]
      rfl
  · rw [Write_fst_w, hp]
    exact hl
  · rw [Write_fst_w, hp]
    show Format s.w.dnFormat t = _
    rw [hl.2.1]
  · rw [Write_fst_w, hp]
    show Format s.w.fnFormat t = _
    rw [hl.2.2.1]
  · rw [Write_fst_os, cdirs]
    exact hdirmem
  · refine ⟨(osMkdirAll Faults.none (s.os.record (.stat (dayDir b t))) (dayDir b t)).1.nextFd,
      (osMkdirAll Faults.none (s.os.record (.stat (dayDir b t))) (dayDir b t)).1.freshIno,
      ?_, ?_, ?_⟩
    · rw [Write_fst_w]; exact cfd
    · rw [Write_fst_os, cfds]; exact lookup_cons_self _ _ _
    · rw [Write_fst_os, cn]; exact lookup_cons_self _ _ _
  · rw [Write_fst_os]
    exact disk_create b m t L _ _ _ p hd0 hm hdirmem hfr cn cdirs cdi cdj


theorem active_same_month (b : String) (m : Int) (cur t : Time) (L : Nat) (os : OS)
    (hd : Disk b m cur L os) (ht : cur ≤ t) (hex : dayDir b t ∈ os.dirs) :
    Format "200601" t = Format "200601" cur := by
  rcases hd.1 _ hex with hp | ⟨s, hs, he⟩
  · have := hp.length_le
    rw [dayDir_length] at this
    omega
  · have h1 := dayDir_inj b t s he
    have h2 := month_convex s cur t hs ht h1.symm
    rw [h2, h1]

theorem dayDir_congr (b : String) (s t : Time) (h : Format "200601" s = Format "200601" t) :
    dayDir b s = dayDir b t := by
  unfold dayDir
  rw [h]

theorem dayFile_congr (b : String) (s t : Time) (h : Format "200601" s = Format "200601" t)
    (h' : Format "02" s = Format "02" t) : dayFile b s = dayFile b t := by
  unfold dayFile
  rw [h, h']

theorem isDir_of_mem (os : OS) (q : Path) (h : q ∈ os.dirs) : os.isDir q = true := by
  unfold OS.isDir
  simp [h]

theorem step_keep (b : String) (m : Int) (cur t : Time) (L : Nat) (s : State) (p : Bytes)
    (h : Nat) (i : Ino) (hl : Layout b m s.w) (hfn : s.w.fileName = Format "02" cur)
    (hfd : s.w.fd = some h) (hfds : s.os.fds.lookup h = some i)
    (hi : s.os.names.lookup (dayFile b cur) = some i)
    (hd : Disk b m cur L s.os) (ht : cur ≤ t) (hex : dayDir b t ∈ s.os.dirs)
    (hday : Format "02" t = Format "02" cur) (hsz : ¬ ((s.os.data i).length : Int) > m) :
    Active b m t (Write (Clock.const t) Faults.none s p).1
    ∧ Disk b m t (max L p.length) (Write (Clock.const t) Faults.none s p).1.os
    ∧ (Write (Clock.const t) Faults.none s p).1.os.names = s.os.names
    ∧ (Write (Clock.const t) Faults.none s p).1.os.data i = s.os.data i ++ p
    ∧ ∀ j, j ≠ i → (Write (Clock.const t) Faults.none s p).1.os.data j = s.os.data j := by
  have hmon := active_same_month b m cur t L s.os hd ht hex
  have hfile : s.os.file s.w.fd = some i := by
    rw [hfd]
    exact hfds
  have hdp := dirPath_layout b m s.w t hl
  have hbr := branch_cases_of_fstat (Clock.const t) Faults.none s i
    (by rw [hdp]; exact isDir_of_mem _ _ hex) rfl hfile
  have hst : ¬ (Format s.w.fnFormat (Clock.const t).stem ≠ s.w.fileName) := by
    rw [hl.2.2.1, hfn]
    exact not_not.mpr hday
  rw [if_neg hst, hl.2.2.2.2, if_neg hsz] at hbr
  obtain ⟨hp, -, -⟩ := prepare_keep _ _ s hbr
  obtain ⟨-, wd, wn, wf, -, wcase⟩ :=
    osWrite_spec Faults.none (statted (Clock.const t) s) s.w.fd p
  rcases wcase with ⟨hc, -⟩ | ⟨i', k, e, -, hc, -⟩ | ⟨i', hf, -, hdata, -⟩
  · rw [statted_file, hfile] at hc; cases hc
  · cases hc
  · rw [statted_file, hfile] at hf
    cases hf
    have hos : (Write (Clock.const t) Faults.none s p).1.os
        = (osWrite Faults.none (statted (Clock.const t) s) s.w.fd p).1 := by
      rw [Write_fst_os, hp]
      rfl
    have hw : (Write (Clock.const t) Faults.none s p).1.w = dated (Clock.const t) s.w := by
      rw [Write_fst_w, hp]
    have hfe := dayFile_congr b t cur hmon hday
    have hdi : (osWrite Faults.none (statted (Clock.const t) s) s.w.fd p).1.data i
        = s.os.data i ++ p := by
      rw [hdata]
      simp
      rfl
    have hdj : ∀ j, j ≠ i →
        (osWrite Faults.none (statted (Clock.const t) s) s.w.fd p).1.data j = s.os.data j := by
      intro j hj
      rw [hdata, Function.update_noteq hj]
      rfl
    refine ⟨⟨?_, ?_, ?_, ?_, ?_⟩, ?_, ?_, ?_, ?_⟩
    rotate_right 3
    · rw [hos, wn]; rfl
    · rw [hos]; exact hdi
    · intro j hj
      rw [hos]
      exact hdj j hj
    · rw [hw]; exact hl
    · rw [hw]
      show Format s.w.dnFormat t = _
      rw [hl.2.1]
    · rw [hw]
      show s.w.fileName = _
      rw [hfn, hday]
    · rw [hos, wd]
      exact hex
    · refine ⟨h, i, ?_, ?_, ?_⟩
      · rw [hw]; exact hfd
      · rw [hos, wf]; exact hfds
      · rw [hos, wn, hfe]; exact hi
    · rw [hos]
      apply disk_mono b m cur t _ _ _ _ ht (le_refl _)
      exact disk_append b m cur L s.os _ i p hd hi (not_lt.mp hsz) wn wd hdi hdj

theorem step_rollover (b : String) (m : Int) (cur t : Time) (L : Nat) (s : State) (p : Bytes)
    (h : Nat) (i : Ino) (hl : Layout b m s.w) (hfn : s.w.fileName = Format "02" cur)
    (hfd : s.w.fd = some h) (hfds : s.os.fds.lookup h = some i)
    (hd : Disk b m cur L s.os) (ht : cur ≤ t) (hm : 0 ≤ m) (hex : dayDir b t ∈ s.os.dirs)
    (hday : Format "02" t ≠ Format "02" cur) :
    Active b m t (Write (Clock.const t) Faults.none s p).1
    ∧ Disk b m t (max L p.length) (Write (Clock.const t) Faults.none s p).1.os := by
  have hmon := active_same_month b m cur t L s.os hd ht hex
  have hfile : s.os.file s.w.fd = some i := by
    rw [hfd]
    exact hfds
  have hdp := dirPath_layout b m s.w t hl
  have hbr := branch_cases_of_fstat (Clock.const t) Faults.none s i
    (by rw [hdp]; exact isDir_of_mem _ _ hex) rfl hfile
  have hst : Format s.w.fnFormat (Clock.const t).stem ≠ s.w.fileName := by
    rw [hl.2.2.1, hfn]
    exact hday
  rw [if_pos hst] at hbr
  obtain ⟨hp, -⟩ := prepare_rollover _ _ s hbr
  obtain ⟨-, cdirs, cn, cdata, -⟩ := osClose_spec (statted (Clock.const t) s) s.w.fd
  have hd0 : Disk b m t L (osClose (statted (Clock.const t) s) s.w.fd) :=
    disk_congr b m t L s.os _ (disk_mono b m cur t L L s.os hd ht (le_refl _)) cn cdirs cdata
  have hop : openPath (Clock.const t) ⟨dated (Clock.const t) s.w,
      osClose (statted (Clock.const t) s) s.w.fd⟩ = dayFile b t := by
    rw [openPath_of_dated t _ s.w rfl, target_layout b m s.w t hl]
  have hdirmem : dayDir b t ∈ (osClose (statted (Clock.const t) s) s.w.fd).dirs := by
    rw [cdirs]
    exact hex
  have hnone : (osClose (statted (Clock.const t) s) s.w.fd).names.lookup (dayFile b t)
      = none := by
    rw [cn]
    show s.os.names.lookup (dayFile b t) = none
    cases hlk : s.os.names.lookup (dayFile b t) with
    | none => rfl
    | some j =>
      exfalso
      obtain ⟨s', hs', -, -, hcase⟩ := hd.2.1 _ j hlk
      rcases hcase with hc | ⟨u, hc, -⟩
      · obtain ⟨e1, e2⟩ := dayFile_inj_month b t s' hc
        have := day_convex s' cur t hs' ht e1.symm e2.symm
        exact hday (by rw [e2, this])
      · exact dayFile_ne_rotFile b t s' u hc
  obtain ⟨cfd, wn, wfds, wdirs, cdi, cdj, -⟩ := create_and_write t
    ⟨dated (Clock.const t) s.w, osClose (statted (Clock.const t) s) s.w.fd⟩ p
    (by rw [hop]; exact disk_not_dir b m t L _ hd0 _ (dayFile_length b t))
    (by rw [hop]; exact hnone)
    (by rw [hop, dayFile_dropLast]; exact isDir_of_mem _ _ hdirmem)
  rw [← hp] at cfd wn wfds wdirs cdi cdj
  rw [hop] at wn
  dsimp only at cfd wn wfds wdirs cdi cdj
  have hfr : ∀ q j, (osClose (statted (Clock.const t) s) s.w.fd).names.lookup q = some j →
      j ≠ (osClose (statted (Clock.const t) s) s.w.fd).freshIno :=
    fun q j hq => Nat.ne_of_lt (lookup_lt_freshIno _ q j hq)
  refine ⟨⟨?_, ?_, ?_, ?_, ?_⟩, ?_⟩
  · rw [Write_fst_w, hp]
    exact hl
  · rw [Write_fst_w, hp]
    show Format s.w.dnFormat t = _
    rw [hl.2.1]
  · rw [Write_fst_w, hp]
    show Format s.w.fnFormat t = _
    rw [hl.2.2.1]
  · rw [Write_fst_os, wdirs]
    exact hdirmem
  · refine ⟨(osClose (statted (Clock.const t) s) s.w.fd).nextFd,
      (osClose (statted (Clock.const t) s) s.w.fd).freshIno, ?_, ?_, ?_⟩
    · rw [Write_fst_w]; exact cfd
    · rw [Write_fst_os, wfds]; exact lookup_cons_self _ _ _
    · rw [Write_fst_os, wn]; exact lookup_cons_self _ _ _
  · rw [Write_fst_os]
    exact disk_create b m t L _ _ _ p hd0 hm hdirmem hfr wn wdirs cdi cdj


theorem step_overflow (b : String) (m : Int) (cur t : Time) (L : Nat) (s : State) (p : Bytes)
    (h : Nat) (i : Ino) (hl : Layout b m s.w) (hfn : s.w.fileName = Format "02" cur)
    (hfd : s.w.fd = some h) (hfds : s.os.fds.lookup h = some i)
    (hi : s.os.names.lookup (dayFile b cur) = some i)
    (hd : Disk b m cur L s.os) (ht : cur ≤ t) (hm : 0 ≤ m) (hex : dayDir b t ∈ s.os.dirs)
    (hday : Format "02" t = Format "02" cur) (hsz : ((s.os.data i).length : Int) > m) :
    Active b m t (Write (Clock.const t) Faults.none s p).1
    ∧ Disk b m t (max L p.length) (Write (Clock.const t) Faults.none s p).1.os
    ∧ ∃ fr, fr ≠ i
        ∧ (Write (Clock.const t) Faults.none s p).1.os.names
          = (dayFile b t, fr) :: (rotFile b t t, i) ::
              s.os.names.filter (fun e => e.1 ≠ dayFile b t ∧ e.1 ≠ rotFile b t t)
        ∧ (Write (Clock.const t) Faults.none s p).1.os.data fr = p
        ∧ ∀ j, j ≠ fr → (Write (Clock.const t) Faults.none s p).1.os.data j = s.os.data j := by
  have hmon := active_same_month b m cur t L s.os hd ht hex
  have hfe := dayFile_congr b t cur hmon hday
  have hfile : s.os.file s.w.fd = some i := by
    rw [hfd]
    exact hfds
  have hdp := dirPath_layout b m s.w t hl
  have hbr := branch_cases_of_fstat (Clock.const t) Faults.none s i
    (by rw [hdp]; exact isDir_of_mem _ _ hex) rfl hfile
  have hstem : Format s.w.fnFormat t = s.w.fileName := by
    rw [hl.2.2.1, hfn]
    exact hday
  have hst : ¬ (Format s.w.fnFormat (Clock.const t).stem ≠ s.w.fileName) := not_not.mpr hstem
  rw [if_neg hst, hl.2.2.2.2, if_pos hsz] at hbr
  obtain ⟨hp, -, -⟩ := prepare_overflow _ _ s hbr
  obtain ⟨-, cdirs, cn, cdata, -⟩ := osClose_spec (statted (Clock.const t) s) s.w.fd
  have hd1 : Disk b m t L (osClose (statted (Clock.const t) s) s.w.fd) :=
    disk_congr b m t L s.os _ (disk_mono b m cur t L L s.os hd ht (le_refl _)) cn cdirs cdata
  have hold : oldPath (dated (Clock.const t) s.w) = dayFile b t := by
    rw [← target_eq_oldPath t s.w hstem, target_layout b m s.w t hl]
  have hnew : newPath (dated (Clock.const t) s.w) t = rotFile b t t :=
    newPath_layout b m s.w t t hl (by rw [hfn, hday])
  have hi1 : (osClose (statted (Clock.const t) s) s.w.fd).names.lookup (dayFile b t)
      = some i := by
    rw [cn, hfe]
    exact hi
  have hdirmem1 : dayDir b t ∈ (osClose (statted (Clock.const t) s) s.w.fd).dirs := by
    rw [cdirs]
    exact hex
  have hcan : (osClose (statted (Clock.const t) s) s.w.fd).canRename (dayFile b t)
      (rotFile b t t) = true := by
    unfold OS.canRename OS.isFile
    rw [hi1, disk_not_dir b m t L _ hd1 _ (rotFile_length b t t), rotFile_dropLast,
      isDir_of_mem _ _ hdirmem1]
    rfl
  obtain ⟨-, rdirs, rdata, rfds, -, rcase⟩ := osRename_spec Faults.none
    (osClose (statted (Clock.const t) s) s.w.fd) (oldPath (dated (Clock.const t) s.w))
    (newPath (dated (Clock.const t) s.w) t)
  rw [hold, hnew] at rdirs rdata rfds rcase
  have hros : (rotate (Clock.const t) Faults.none
      ⟨dated (Clock.const t) s.w, osClose (statted (Clock.const t) s) s.w.fd⟩).os
      = (osRename Faults.none (osClose (statted (Clock.const t) s) s.w.fd) (dayFile b t)
          (rotFile b t t)).1 := by
    rw [rotate_os]
    show (osRename Faults.none _ (oldPath (dated (Clock.const t) s.w))
      (newPath (dated (Clock.const t) s.w) t)).1 = _
    rw [hold, hnew]
  rcases rcase with ⟨-, -, hbad⟩ | ⟨-, heq, -⟩ | ⟨iP, -, -, hlP, -, -, rnames⟩
  · rcases hbad with hc | hc
    · cases hc
    · rw [hcan] at hc; cases hc
  · exact absurd heq (dayFile_ne_rotFile b t t t)
  · rw [hi1] at hlP
    cases hlP
    obtain ⟨hd2, hnone⟩ := disk_rename b m t t L _ _ i hd1 hdirmem1 hi1
      (by rw [cdata]; exact hsz) rnames rdirs rdata
    have hdirmem2 : dayDir b t ∈ (osRename Faults.none
        (osClose (statted (Clock.const t) s) s.w.fd) (dayFile b t) (rotFile b t t)).1.dirs := by
      rw [rdirs]
      exact hdirmem1
    have hop : openPath (Clock.const t) (rotate (Clock.const t) Faults.none
        ⟨dated (Clock.const t) s.w, osClose (statted (Clock.const t) s) s.w.fd⟩)
        = dayFile b t := by
      rw [openPath_of_dated t _ s.w (rotate_w _ _ _), target_layout b m s.w t hl]
    obtain ⟨cfd, wn, wfds, wdirs, cdi, cdj, -⟩ := create_and_write t
      (rotate (Clock.const t) Faults.none
        ⟨dated (Clock.const t) s.w, osClose (statted (Clock.const t) s) s.w.fd⟩) p
      (by rw [hop, hros]; exact disk_not_dir b m t L _ hd2 _ (dayFile_length b t))
      (by rw [hop, hros]; exact hnone)
      (by rw [hop, hros, dayFile_dropLast]; exact isDir_of_mem _ _ hdirmem2)
    rw [← hp] at cfd wn wfds wdirs cdi cdj
    rw [hop] at wn
    rw [hros] at cfd wn wfds wdirs cdi cdj
    have hfr : ∀ q j, (osRename Faults.none (osClose (statted (Clock.const t) s) s.w.fd)
        (dayFile b t) (rotFile b t t)).1.names.lookup q = some j →
        j ≠ (osRename Faults.none (osClose (statted (Clock.const t) s) s.w.fd)
          (dayFile b t) (rotFile b t t)).1.freshIno :=
      fun q j hq => Nat.ne_of_lt (lookup_lt_freshIno _ q j hq)
    refine ⟨⟨?_, ?_, ?_, ?_, ?_⟩, ?_, ?_⟩
    rotate_right 1
    · refine ⟨(osRename Faults.none (osClose (statted (Clock.const t) s) s.w.fd)
          (dayFile b t) (rotFile b t t)).1.freshIno, ?_, ?_, ?_, ?_⟩
      · exact (hfr (rotFile b t t) i (by rw [rnames]; exact lookup_cons_self _ _ _)).symm
      · rw [Write_fst_os, wn, rnames, cn]
        rfl
      · rw [Write_fst_os]
        exact cdi
      · intro j hj
        rw [Write_fst_os, cdj j hj, rdata, cdata]
        rfl
    · rw [Write_fst_w, hp]
      exact hl
    · rw [Write_fst_w, hp]
      show Format s.w.dnFormat t = _
      rw [hl.2.1]
    · rw [Write_fst_w, hp]
      show Format s.w.fnFormat t = _
      rw [hl.2.2.1]
    · rw [Write_fst_os, wdirs]
      exact hdirmem2
    · refine ⟨(osRename Faults.none (osClose (statted (Clock.const t) s) s.w.fd)
          (dayFile b t) (rotFile b t t)).1.nextFd,
        (osRename Faults.none (osClose (statted (Clock.const t) s) s.w.fd)
          (dayFile b t) (rotFile b t t)).1.freshIno, ?_, ?_, ?_⟩
      · rw [Write_fst_w]; exact cfd
      · rw [Write_fst_os, wfds]; exact lookup_cons_self _ _ _
      · rw [Write_fst_os, wn]; exact lookup_cons_self _ _ _
    · rw [Write_fst_os]
      exact disk_create b m t L _ _ _ p hd2 hm hdirmem2 hfr wn wdirs cdi cdj

/-- One call without faults, at an instant not before the previous call, takes
a state that satisfies the invariant to one that does. -/
theorem step_inv (b : String) (m : Int) (cur t : Time) (L : Nat) (s : State) (p : Bytes)
    (ha : Active b m cur s) (hd : Disk b m cur L s.os) (ht : cur ≤ t) (hm : 0 ≤ m) :
    Active b m t (Write (Clock.const t) Faults.none s p).1
    ∧ Disk b m t (max L p.length) (Write (Clock.const t) Faults.none s p).1.os := by
  obtain ⟨hl, -, hfn, -, h, i, hfd, hfds, hi⟩ := ha
  by_cases hex : dayDir b t ∈ s.os.dirs
  · by_cases hday : Format "02" t = Format "02" cur
    · by_cases hsz : ((s.os.data i).length : Int) > m
      · obtain ⟨h1, h2, -⟩ :=
          step_overflow b m cur t L s p h i hl hfn hfd hfds hi hd ht hm hex hday hsz
        exact ⟨h1, h2⟩
      · obtain ⟨h1, h2, -⟩ :=
          step_keep b m cur t L s p h i hl hfn hfd hfds hi hd ht hex hday hsz
        exact ⟨h1, h2⟩
    · exact step_rollover b m cur t L s p h i hl hfn hfd hfds hd ht hm hex hday
  · obtain ⟨h1, h2, -⟩ := step_newDir b m cur t L s p hl hd ht hm hex
    exact ⟨h1, h2⟩

/-- The first call on a disk with nothing below the base directory. -/
theorem first_inv (b : String) (m : Int) (t : Time) (s : State) (p : Bytes)
    (hl : Layout b m s.w) (hm : 0 ≤ m) (hn : s.os.names = [])
    (hdirs : ∀ d ∈ s.os.dirs, d <+: Join [b]) :
    Active b m t (Write (Clock.const t) Faults.none s p).1
    ∧ Disk b m t (max 0 p.length) (Write (Clock.const t) Faults.none s p).1.os
    ∧ ∃ fr, (Write (Clock.const t) Faults.none s p).1.os.names = [(dayFile b t, fr)]
        ∧ (Write (Clock.const t) Faults.none s p).1.os.data fr = p := by
  have hd : Disk b m t 0 s.os := by
    refine ⟨fun d hd => Or.inl (hdirs d hd), ?_, ?_⟩
    · intro q i hq
      rw [hn] at hq
      cases hq
    · intro q q' i hq
      rw [hn] at hq
      cases hq
  have hnew : dayDir b t ∉ s.os.dirs := by
    intro hc
    have := (hdirs _ hc).length_le
    rw [dayDir_length] at this
    omega
  obtain ⟨h1, h2, fr, h3, h4, -⟩ := step_newDir b m t t 0 s p hl hd (le_refl _) hm hnew
  exact ⟨h1, h2, fr, by rw [h3, hn], h4⟩


/-! ## Sequences of calls (C10) -/

theorem maxLen_cons (t : Time) (p : Bytes) (rest : List (Time × Bytes)) :
    maxLen ((t, p) :: rest) = max p.length (maxLen rest) := rfl

theorem writes_inv (b : String) (m : Int) (hm : 0 ≤ m) :
    ∀ (calls : List (Time × Bytes)) (cur : Time) (L : Nat) (s : State),
      Active b m cur s → Disk b m cur L s.os →
      List.Chain (· ≤ ·) cur (calls.map Prod.fst) →
      ∃ t, Active b m t (writes s calls)
        ∧ Disk b m t (max L (maxLen calls)) (writes s calls).os := by
  intro calls
  induction calls with
  | nil =>
    intro cur L s ha hd _
    refine ⟨cur, ha, ?_⟩
    have : max L (maxLen ([] : List (Time × Bytes))) = L := by simp [maxLen]
    rw [this]
    exact hd
  | cons c rest ih =>
    intro cur L s ha hd hch
    obtain ⟨t, p⟩ := c
    simp only [List.map_cons, List.chain_cons] at hch
    obtain ⟨ht, hrest⟩ := hch
    obtain ⟨ha', hd'⟩ := step_inv b m cur t L s p ha hd ht hm
    obtain ⟨u, hau, hdu⟩ := ih t (max L p.length) _ ha' hd' hrest
    refine ⟨u, hau, ?_⟩
    rw [maxLen_cons, ← max_assoc]
    exact hdu

/-- The size bounds for every writer with the layouts of `New` and a threshold
that is not negative, over calls that each read one instant. -/
theorem sizes_bounded_of_layout (w : zWriter) (os : OS) (calls : List (Time × Bytes))
    (hdn : w.dnFormat = "200601") (hfn : w.fnFormat = "02") (hext : w.ext = ".log")
    (hm : 0 ≤ w.maxBytes) (hn : os.names = [])
    (hdirs : ∀ d ∈ os.dirs, d <+: Join [w.baseDir])
    (hmono : (calls.map Prod.fst).Chain' (· ≤ ·)) :
    ∀ q i, (writes ⟨w, os⟩ calls).os.names.lookup q = some i →
      (((writes ⟨w, os⟩ calls).os.data i).length : Int) ≤ w.maxBytes + maxLen calls
      ∧ ∀ n, q.getLast? = some n → RotatedName w.ext n →
          w.maxBytes < (((writes ⟨w, os⟩ calls).os.data i).length : Int) := by
  have hl : Layout w.baseDir w.maxBytes w := ⟨rfl, hdn, hfn, hext, rfl⟩
  cases calls with
  | nil =>
    intro q i hq
    change os.names.lookup q = some i at hq
    rw [hn] at hq
    cases hq
  | cons c rest =>
    obtain ⟨t, p⟩ := c
    obtain ⟨ha, hd, -⟩ := first_inv w.baseDir w.maxBytes t ⟨w, os⟩ p hl hm hn hdirs
    have hch : List.Chain (· ≤ ·) t (rest.map Prod.fst) := hmono
    obtain ⟨u, hau, hdu⟩ := writes_inv w.baseDir w.maxBytes hm rest t _ _ ha hd hch
    intro q i hq
    change (writes (Write (Clock.const t) Faults.none ⟨w, os⟩ p).1 rest).os.names.lookup q
      = some i at hq
    change ((((writes (Write (Clock.const t) Faults.none ⟨w, os⟩ p).1 rest).os.data i).length
      : Int) ≤ _) ∧ ∀ n, q.getLast? = some n → RotatedName w.ext n →
        w.maxBytes < (((writes (Write (Clock.const t) Faults.none ⟨w, os⟩ p).1 rest).os.data
          i).length : Int)
    obtain ⟨s, -, -, hsz, hcase⟩ := hdu.2.1 q i hq
    have hL : max (max 0 p.length) (maxLen rest) = maxLen ((t, p) :: rest) := by
      rw [maxLen_cons]
      simp
    rw [hL] at hsz
    refine ⟨hsz, ?_⟩
    intro n hn' hrot
    rw [hext] at hrot
    rcases hcase with hc | ⟨v, -, hgt⟩
    · rw [hc] at hn'
      exact absurd hrot (dayFile_not_rotated _ s n hn')
    · exact hgt

theorem writesAt_const (calls : List (Clock × Bytes))
    (hinst : ∀ c ∈ calls, c.1 = Clock.const c.1.dir) :
    ∀ s, writesAt s calls = writes s (calls.map (fun c => (c.1.dir, c.2))) := by
  induction calls with
  | nil => intro s; rfl
  | cons c rest ih =>
    intro s
    obtain ⟨clk, p⟩ := c
    have h1 : clk = Clock.const clk.dir := hinst (clk, p) (List.mem_cons_self _ _)
    have h2 := ih (fun c hc => hinst c (List.mem_cons_of_mem _ hc))
    show writesAt (Write clk Faults.none s p).1 rest
      = writes (Write (Clock.const clk.dir) Faults.none s p).1
          (rest.map (fun c => (c.1.dir, c.2)))
    rw [← h1]
    exact h2 _

theorem maxLen_map_dir (calls : List (Clock × Bytes)) :
    maxLen (calls.map (fun c => (c.1.dir, c.2))) = maxLen calls := by
  unfold maxLen
  rw [List.map_map]
  rfl

/-- C10, as amended: for the writer `New` builds, started on a disk with
nothing below the base directory, after every sequence of calls made without
faults, each reading the clock as one instant, at instants that do not
decrease, every file on disk has size at most `maxBytes + L`, where `L` is the
length of the longest payload written so far, and every file whose name is a
stem, an underscore, a number and the extension has size strictly greater than
`maxBytes`. -/
theorem sizes_bounded (os : OS) (calls : List (Clock × Bytes))
    (hn : os.names = []) (hdirs : ∀ d ∈ os.dirs, d <+: Join [New.baseDir])
    (hinst : ∀ c ∈ calls, c.1 = Clock.const c.1.dir)
    (hmono : (calls.map (fun c => c.1.dir)).Chain' (· ≤ ·)) :
    ∀ q i, (writesAt ⟨New, os⟩ calls).os.names.lookup q = some i →
      (((writesAt ⟨New, os⟩ calls).os.data i).length : Int) ≤ New.maxBytes + maxLen calls
      ∧ ∀ n, q.getLast? = some n → RotatedName New.ext n →
          New.maxBytes < (((writesAt ⟨New, os⟩ calls).os.data i).length : Int) := by
  rw [writesAt_const calls hinst, ← maxLen_map_dir calls]
  refine sizes_bounded_of_layout New os _ rfl rfl rfl (by decide) hn hdirs ?_
  rw [List.map_map]
  exact hmono


/-! ## Five short records (C8) -/

theorem formats_of_date (s t : Time) (h : dateOf s = dateOf t) :
    Format "200601" s = Format "200601" t ∧ Format "02" s = Format "02" t := by
  rw [Format_month, Format_month, Format_day, Format_day, h]
  exact ⟨rfl, rfl⟩

theorem single_keep (b : String) (m : Int) (cur t : Time) (L : Nat) (s : State) (f : Ino)
    (c p : Bytes) (h : Single b m cur L s f c) (ht : cur ≤ t) (hdate : dateOf t = dateOf cur)
    (hsz : ¬ ((c.length : Int) > m)) :
    Single b m t (max L p.length) (Write (Clock.const t) Faults.none s p).1 f (c ++ p) := by
  obtain ⟨ha, hd, hn, hc⟩ := h
  obtain ⟨hl, -, hfn, hdir, h, i, hfd, hfds, hi⟩ := ha
  obtain ⟨e1, e2⟩ := formats_of_date t cur hdate
  have hif : i = f := by
    rw [hn, lookup_cons_self] at hi
    exact (Option.some.inj hi).symm
  subst hif
  obtain ⟨ha', hd', hn', hdi, -⟩ := step_keep b m cur t L s p h i hl hfn hfd hfds hi hd ht
    (by rw [dayDir_congr b t cur e1]; exact hdir) e2 (by rw [hc]; exact hsz)
  refine ⟨ha', hd', ?_, ?_⟩
  · rw [hn', hn, dayFile_congr b t cur e1 e2]
  · rw [hdi, hc]

theorem single_overflow (b : String) (m : Int) (cur t : Time) (L : Nat) (s : State) (f : Ino)
    (c p : Bytes) (h : Single b m cur L s f c) (ht : cur ≤ t) (hm : 0 ≤ m)
    (hdate : dateOf t = dateOf cur) (hsz : (c.length : Int) > m) :
    ∃ fr, fr ≠ f
      ∧ (Write (Clock.const t) Faults.none s p).1.os.names
          = [(dayFile b cur, fr), (rotFile b cur t, f)]
      ∧ (Write (Clock.const t) Faults.none s p).1.os.data fr = p
      ∧ (Write (Clock.const t) Faults.none s p).1.os.data f = c := by
  obtain ⟨ha, hd, hn, hc⟩ := h
  obtain ⟨hl, -, hfn, hdir, h, i, hfd, hfds, hi⟩ := ha
  obtain ⟨e1, e2⟩ := formats_of_date t cur hdate
  have hif : i = f := by
    rw [hn, lookup_cons_self] at hi
    exact (Option.some.inj hi).symm
  subst hif
  obtain ⟨-, -, fr, hne, hn', hdi, hdj⟩ := step_overflow b m cur t L s p h i hl hfn hfd hfds hi
    hd ht hm (by rw [dayDir_congr b t cur e1]; exact hdir) e2 (by rw [hc]; exact hsz)
  have hfe := dayFile_congr b t cur e1 e2
  have hre : rotFile b t t = rotFile b cur t := by
    unfold rotFile
    rw [e1, e2]
  refine ⟨fr, hne, ?_, hdi, ?_⟩
  · rw [hn', hn, hfe, hre]
    simp
  · rw [hdj i (Ne.symm hne), hc]

/-- C8: a writer with the layouts of `New` and `maxBytes = 10`, started on a
disk with nothing below the base directory, after five calls of three bytes
each, made without faults at successive instants of one day, has left exactly
two files: the day file, of three bytes, and one rotated file, named after the
instant of the fifth call, of twelve bytes; the two sizes sum to 15. -/
theorem five_records_two_files (w : zWriter) (os : OS) (t1 t2 t3 t4 t5 : Time)
    (p1 p2 p3 p4 p5 : Bytes)
    (hdn : w.dnFormat = "200601") (hfn : w.fnFormat = "02") (hext : w.ext = ".log")
    (hmax : w.maxBytes = 10) (hn : os.names = [])
    (hdirs : ∀ d ∈ os.dirs, d <+: Join [w.baseDir])
    (h12 : t1 ≤ t2) (h23 : t2 ≤ t3) (h34 : t3 ≤ t4) (h45 : t4 ≤ t5)
    (hday : dateOf t5 = dateOf t1)
    (l1 : p1.length = 3) (l2 : p2.length = 3) (l3 : p3.length = 3) (l4 : p4.length = 3)
    (l5 : p5.length = 3) :
    (writes ⟨w, os⟩ [(t1, p1), (t2, p2), (t3, p3), (t4, p4), (t5, p5)]).os.names.map Prod.fst
      = [dayFile w.baseDir t1, rotFile w.baseDir t1 t5]
    ∧ (writes ⟨w, os⟩ [(t1, p1), (t2, p2), (t3, p3), (t4, p4), (t5, p5)]).os.sizeAt
        (dayFile w.baseDir t1) = some 3
    ∧ (writes ⟨w, os⟩ [(t1, p1), (t2, p2), (t3, p3), (t4, p4), (t5, p5)]).os.sizeAt
        (rotFile w.baseDir t1 t5) = some 12
    ∧ (writes ⟨w, os⟩ [(t1, p1), (t2, p2), (t3, p3), (t4, p4), (t5, p5)]).os.totalIn
        (dayDir w.baseDir t1) = 15 := by
  have hl : Layout w.baseDir 10 w := ⟨rfl, hdn, hfn, hext, hmax⟩
  -- every instant is of the day of the first
  have k1 := (dateOf_mono t1 t2 h12).2
  have k2 := (dateOf_mono t2 t3 h23).2
  have k3 := (dateOf_mono t3 t4 h34).2
  have k4 := (dateOf_mono t4 t5 h45).2
  have k5 : (dateOf t5).dayKey = (dateOf t1).dayKey := by rw [hday]
  have d2 : dateOf t2 = dateOf t1 :=
    dayKey_inj _ _ (dateOf_valid _) (dateOf_valid _) (by omega)
  have d3 : dateOf t3 = dateOf t1 :=
    dayKey_inj _ _ (dateOf_valid _) (dateOf_valid _) (by omega)
  have d4 : dateOf t4 = dateOf t1 :=
    dayKey_inj _ _ (dateOf_valid _) (dateOf_valid _) (by omega)
  obtain ⟨ha, hd, f, hn1, hc1⟩ := first_inv w.baseDir 10 t1 ⟨w, os⟩ p1 hl (by decide) hn hdirs
  have s1 : Single w.baseDir 10 t1 (max 0 p1.length)
      (Write (Clock.const t1) Faults.none ⟨w, os⟩ p1).1 f p1 := ⟨ha, hd, hn1, hc1⟩
  have s2 := single_keep w.baseDir 10 t1 t2 _ _ f p1 p2 s1 h12 d2 (by rw [l1]; decide)
  have s3 := single_keep w.baseDir 10 t2 t3 _ _ f _ p3 s2 h23 (by rw [d3, d2])
    (by rw [List.length_append, l1, l2]; decide)
  have s4 := single_keep w.baseDir 10 t3 t4 _ _ f _ p4 s3 h34 (by rw [d4, d3])
    (by rw [List.length_append, List.length_append, l1, l2, l3]; decide)
  obtain ⟨fr, hne, hn5, hd5, hdf⟩ := single_overflow w.baseDir 10 t4 t5 _ _ f _ p5 s4 h45
    (by decide) (by rw [hday, d4])
    (by rw [List.length_append, List.length_append, List.length_append, l1, l2, l3, l4]; decide)
  obtain ⟨e1, e2⟩ := formats_of_date t4 t1 d4
  have hfe : dayFile w.baseDir t4 = dayFile w.baseDir t1 := dayFile_congr _ _ _ e1 e2
  have hre : rotFile w.baseDir t4 t5 = rotFile w.baseDir t1 t5 := by
    unfold rotFile
    rw [e1, e2]
  rw [hfe, hre] at hn5
  have hfinal : writes ⟨w, os⟩ [(t1, p1), (t2, p2), (t3, p3), (t4, p4), (t5, p5)]
      = (Write (Clock.const t5) Faults.none
          (Write (Clock.const t4) Faults.none
            (Write (Clock.const t3) Faults.none
              (Write (Clock.const t2) Faults.none
                (Write (Clock.const t1) Faults.none ⟨w, os⟩ p1).1 p2).1 p3).1 p4).1 p5).1 := rfl
  rw [hfinal]
  have hne' : rotFile w.baseDir t1 t5 ≠ dayFile w.baseDir t1 :=
    Ne.symm (dayFile_ne_rotFile _ _ _ _)
  refine ⟨by rw [hn5]; rfl, ?_, ?_, ?_⟩
  · unfold OS.sizeAt
    rw [hn5, lookup_cons_self, Option.map_some', hd5, l5]
  · unfold OS.sizeAt
    rw [hn5, lookup_cons_ne _ _ _ _ hne', lookup_cons_self, Option.map_some', hdf]
    simp [l1, l2, l3, l4]
  · unfold OS.totalIn
    rw [hn5]
    have q1 : (dayFile w.baseDir t1).dropLast = dayDir w.baseDir t1 := dayFile_dropLast _ _
    have q2 : (rotFile w.baseDir t1 t5).dropLast = dayDir w.baseDir t1 := rotFile_dropLast _ _ _
    simp [q1, q2, hd5, hdf, l1, l2, l3, l4, l5]


/-! ## Concrete runs -/

set_option maxRecDepth 100000 in
/-- C1, counterexample: a writer that wrote on 2024-01-15, on a disk where the
directory of February exists, writes on 2024-02-15. The append succeeds, no
file exists at the path of the current time, and the record is at the end of
the file of January: the file depends on which file the writer had open. -/
theorem kept_handle_misses_target :
    branch (Clock.const feb15) Faults.none afterJan15 = .keep
    ∧ (Write (Clock.const feb15) Faults.none afterJan15 [4, 5, 6]).2 = (3, none)
    ∧ target afterJan15.w feb15 = ["zlog", "202402", "15.log"]
    ∧ (Write (Clock.const feb15) Faults.none afterJan15 [4, 5, 6]).1.os.contentAt
        (target afterJan15.w feb15) = none
    ∧ (Write (Clock.const feb15) Faults.none afterJan15 [4, 5, 6]).1.os.contentAt
        ["zlog", "202401", "15.log"] = some [1, 2, 3, 4, 5, 6] := by
  decide

set_option maxRecDepth 100000 in
/-- C3, counterexample: the open file is larger than `maxBytes`, the call
rotates, and the rename fails. The record is then appended to the old content
at the original path, and no file exists at the path with the suffix. -/
theorem failed_rename_appends_to_old_file :
    afterLong.os.isDir (dirPath (Clock.const nov14) afterLong.w) = true
    ∧ afterLong.os.file afterLong.w.fd = some 1
    ∧ Format afterLong.w.fnFormat nov14 = afterLong.w.fileName
    ∧ branch (Clock.const nov14) renameFails afterLong = .overflow
    ∧ (Write (Clock.const nov14) renameFails afterLong [7, 8, 9]).2 = (3, none)
    ∧ (Write (Clock.const nov14) renameFails afterLong [7, 8, 9]).1.os.contentAt
        (target afterLong.w nov14) = some (line 1 ++ [7, 8, 9])
    ∧ (Write (Clock.const nov14) renameFails afterLong [7, 8, 9]).1.os.contentAt
        (newPath (dated (Clock.const nov14) afterLong.w) nov14) = none := by
  decide

set_option maxRecDepth 100000 in
/-- C4, the failing run: three records of 1025 bytes written by the writer of
`New` within one second. Both rotations rename to the same path, the second
replaces the file of the first, and 2050 of the 3075 bytes written are on
disk. -/
theorem same_second_rotations_lose_bytes :
    (writes start burst).os.names.map Prod.fst
      = [["zlog", "202311", "14.log"], ["zlog", "202311", "14_1700000000.log"]]
    ∧ (writes start burst).os.totalIn ["zlog", "202311"] = 2050
    ∧ (burst.map (fun c => c.2.length)).sum = 3075 := by
  decide

set_option maxRecDepth 100000 in
/-- C5, the failing run: before the third record of the burst the path with
the suffix names the file of the first rotation, holding the first record; the
third call rotates to that same path; afterwards the path holds the second
record and the first record is in no file. -/
theorem same_second_rotation_replaces_file :
    newPath (dated (Clock.const nov14) afterTwo.w) nov14
      = ["zlog", "202311", "14_1700000000.log"]
    ∧ afterTwo.os.contentAt ["zlog", "202311", "14_1700000000.log"] = some (line 1)
    ∧ branch (Clock.const nov14) Faults.none afterTwo = .overflow
    ∧ (Write (Clock.const nov14) Faults.none afterTwo (line 3)).1.os.log.drop
        afterTwo.os.log.length
      = [.stat ["zlog", "202311"], .fstat (some 1), .close (some 1),
         .rename ["zlog", "202311", "14.log"] ["zlog", "202311", "14_1700000000.log"],
         .openFile ["zlog", "202311", "14.log"], .write (some 2) (line 3)]
    ∧ (Write (Clock.const nov14) Faults.none afterTwo (line 3)).1.os.contentAt
        ["zlog", "202311", "14_1700000000.log"] = some (line 2)
    ∧ (Write (Clock.const nov14) Faults.none afterTwo (line 3)).1.os.names.map
        (fun e => (Write (Clock.const nov14) Faults.none afterTwo (line 3)).1.os.data e.2)
      = [line 3, line 2] := by
  decide

set_option maxRecDepth 100000 in
/-- C6, the failing run: a writer that wrote on 2024-01-31 writes on
2024-02-01. The call takes the new-directory path, opens the file of February
without closing the handle of January, and two files are open afterwards, one
of them referenced by no writer. -/
theorem new_directory_leaves_handle_open :
    afterJan31.w.fd = some 0
    ∧ afterJan31.os.fds = [(0, 1)]
    ∧ branch (Clock.const feb01) Faults.none afterJan31 = .newDir
    ∧ (Write (Clock.const feb01) Faults.none afterJan31 [4, 5, 6]).1.os.log.drop
        afterJan31.os.log.length
      = [.stat ["zlog", "202402"], .mkdirAll ["zlog", "202402"],
         .openFile ["zlog", "202402", "01.log"], .write (some 1) [4, 5, 6]]
    ∧ (Write (Clock.const feb01) Faults.none afterJan31 [4, 5, 6]).1.w.fd = some 1
    ∧ (Write (Clock.const feb01) Faults.none afterJan31 [4, 5, 6]).1.os.fds
      = [(1, 2), (0, 1)] := by
  decide

theorem straddle_sorted : (allReadings straddle).Chain' (· ≤ ·) := by
  simp [allReadings, straddle, Clock.readings, Clock.const, jan01, jan31, jan31Last, feb01]

set_option maxRecDepth 100000 in
/-- C10, counterexample: the writer of `New` on an empty disk, three calls whose
readings of the clock never decrease. The third call reads the last second of
January for the directory and the first second of February for the stem and
the file name, so it reopens `202401/01.log`, of 1025 bytes, without a size
check and appends 1025 bytes: 2050 bytes, one more than `maxBytes + L`. -/
theorem straddling_call_exceeds_bound :
    (allReadings straddle).Chain' (· ≤ ·)
    ∧ (writesAt start straddle).os.sizeAt ["zlog", "202401", "01.log"] = some 2050
    ∧ start.w.maxBytes + maxLen straddle = 2049 :=
  ⟨straddle_sorted, rfl, by decide⟩

set_option maxRecDepth 100000 in
/-- C7, counterexample: the writer of `New` after one record on 2023-11-14, the
directory of the month present, the stat of the handle succeeding, and a
directory standing at the path of the file of 2023-11-15. The call on the 15th
closes the handle and its open fails: it returns 0 and the error of the nil
handle, the three bytes are in no file, and no file exists at the path that was
to be opened. -/
theorem failed_open_after_rollover_appends_nowhere :
    blockedNov15.os.isDir (dirPath (Clock.const nov15) blockedNov15.w) = true
    ∧ blockedNov15.os.file blockedNov15.w.fd = some 1
    ∧ Format blockedNov15.w.fnFormat nov15 ≠ blockedNov15.w.fileName
    ∧ (Write (Clock.const nov15) Faults.none blockedNov15 [4, 5, 6]).2 = (0, some Err.invalid)
    ∧ (Write (Clock.const nov15) Faults.none blockedNov15 [4, 5, 6]).1.w.fd = none
    ∧ (Write (Clock.const nov15) Faults.none blockedNov15 [4, 5, 6]).1.os.names = [(["zlog", "202311", "14.log"], 1)]
    ∧ (Write (Clock.const nov15) Faults.none blockedNov15 [4, 5, 6]).1.os.data 1 = [1, 2, 3]
    ∧ (Write (Clock.const nov15) Faults.none blockedNov15 [4, 5, 6]).1.os.contentAt (target blockedNov15.w nov15) = none := by
  decide


/-! ## The theorems at concrete inputs -/

set_option maxRecDepth 100000 in
/-- C1, witness: the second record of a day lands in the day file: `append_lands_at_target`
at a kept handle that is open on the target. -/
theorem append_lands_at_target_witness :
    branch (Clock.const nov14) Faults.none afterShort = .keep
    ∧ (Write (Clock.const nov14) Faults.none afterShort [4, 5, 6]).2.2 = none
    ∧ afterShort.os.file afterShort.w.fd = afterShort.os.names.lookup (target afterShort.w nov14)
    ∧ ∃ i, (Write (Clock.const nov14) Faults.none afterShort [4, 5, 6]).1.os.names.lookup
          (target afterShort.w nov14) = some i
      ∧ (Write (Clock.const nov14) Faults.none afterShort [4, 5, 6]).1.os.file
          (Write (Clock.const nov14) Faults.none afterShort [4, 5, 6]).1.w.fd = some i
      ∧ (Write (Clock.const nov14) Faults.none afterShort [4, 5, 6]).1.os.data i
          = (prepare (Clock.const nov14) Faults.none afterShort).os.data i ++ [4, 5, 6]
      ∧ (Write (Clock.const nov14) Faults.none afterShort [4, 5, 6]).2.1
          = ([4, 5, 6] : Bytes).length
      ∧ ∀ j, j ≠ i →
          (Write (Clock.const nov14) Faults.none afterShort [4, 5, 6]).1.os.data j
            = afterShort.os.data j :=
  ⟨by decide, by decide, by decide,
    append_lands_at_target nov14 Faults.none afterShort [4, 5, 6] (by decide)
      (fun _ => by decide)⟩

set_option maxRecDepth 100000 in
/-- C3, witness: a file of 1025 bytes is rotated by the writer of `New`: `rotation_by_size`
at the state after one long record, where the rename and the append succeed. The handle 0
is closed and the handle 1 is the only open file; the old file is at the suffixed path and
the original path names a new file holding the three bytes written. -/
theorem rotation_by_size_witness :
    afterLong.os.isDir (dirPath (Clock.const nov14) afterLong.w) = true
    ∧ afterLong.os.file afterLong.w.fd = some 1
    ∧ Format afterLong.w.fnFormat nov14 = afterLong.w.fileName
    ∧ ((afterLong.os.data 1).length : Int) > afterLong.w.maxBytes
    ∧ afterLong.os.canRename (target afterLong.w nov14)
        (newPath (dated (Clock.const nov14) afterLong.w) nov14) = true
    ∧ target afterLong.w nov14 ≠ newPath (dated (Clock.const nov14) afterLong.w) nov14
    ∧ (Write (Clock.const nov14) Faults.none afterLong [7, 8, 9]).2.2 = none
    ∧ branch (Clock.const nov14) Faults.none afterLong = .overflow
    ∧ (Write (Clock.const nov14) Faults.none afterLong [7, 8, 9]).1.os.log
        = afterLong.os.log ++
          [.stat (dirPath (Clock.const nov14) afterLong.w), .fstat afterLong.w.fd,
           .close afterLong.w.fd,
           .rename (target afterLong.w nov14)
             (newPath (dated (Clock.const nov14) afterLong.w) nov14),
           .openFile (target afterLong.w nov14),
           .write (Write (Clock.const nov14) Faults.none afterLong [7, 8, 9]).1.w.fd [7, 8, 9]]
    ∧ (((Write (Clock.const nov14) Faults.none afterLong [7, 8, 9]).1.w.fd = none
        ∧ (Write (Clock.const nov14) Faults.none afterLong [7, 8, 9]).1.os.fds
            = afterLong.os.fds.filter (fun e => e.1 ≠ 0))
      ∨ ∃ i', (Write (Clock.const nov14) Faults.none afterLong [7, 8, 9]).1.w.fd = some afterLong.os.nextFd
        ∧ (Write (Clock.const nov14) Faults.none afterLong [7, 8, 9]).1.os.fds
            = (afterLong.os.nextFd, i') :: afterLong.os.fds.filter (fun e => e.1 ≠ 0))
    ∧ ∃ iP, afterLong.os.names.lookup (target afterLong.w nov14) = some iP
      ∧ (Write (Clock.const nov14) Faults.none afterLong [7, 8, 9]).1.os.names.lookup
          (newPath (dated (Clock.const nov14) afterLong.w) nov14) = some iP
      ∧ (Write (Clock.const nov14) Faults.none afterLong [7, 8, 9]).1.os.data iP = afterLong.os.data iP
      ∧ ∃ i, i ≠ iP
        ∧ (Write (Clock.const nov14) Faults.none afterLong [7, 8, 9]).1.os.names.lookup
            (target afterLong.w nov14) = some i
        ∧ (Write (Clock.const nov14) Faults.none afterLong [7, 8, 9]).1.os.data i = [7, 8, 9] := by
  have h := rotation_by_size nov14 Faults.none afterLong [7, 8, 9] 1 (by decide) rfl
    (by decide) (by decide)
  have hsz : ((afterLong.os.data 1).length : Int) > afterLong.w.maxBytes := by decide
  obtain ⟨iP, h1, h2, h3, h4⟩ := (h.2.1 hsz).2.2 rfl (by decide) (by decide)
  exact ⟨by decide, by decide, by decide, hsz, by decide, by decide, by decide, h.1.2 hsz,
    (h.2.1 hsz).1, (h.2.1 hsz).2.1 0 (by decide), iP, h1, h2, h3, h4 (by decide)⟩

set_option maxRecDepth 100000 in
/-- C7, witness: the first record of 2023-11-15 after a record of 2023-11-14:
`rollover_reopens_without_rename` at that state, where the open and the append succeed. The
handle 0 is closed, the file of the 14th keeps its name, and the file of the 15th holds the
three bytes written. -/
theorem rollover_reopens_without_rename_witness :
    afterShort.os.isDir (dirPath (Clock.const nov15) afterShort.w) = true
    ∧ afterShort.os.file afterShort.w.fd = some 1
    ∧ Format afterShort.w.fnFormat nov15 ≠ afterShort.w.fileName
    ∧ (Write (Clock.const nov15) Faults.none afterShort [4, 5, 6]).2.2 = none
    ∧ (Write (Clock.const nov15) Faults.none afterShort [4, 5, 6]).1.os.log
        = afterShort.os.log ++
          [.stat (dirPath (Clock.const nov15) afterShort.w), .fstat afterShort.w.fd,
           .close afterShort.w.fd, .openFile (target afterShort.w nov15),
           .write (Write (Clock.const nov15) Faults.none afterShort [4, 5, 6]).1.w.fd [4, 5, 6]]
    ∧ (Write (Clock.const nov15) Faults.none afterShort [4, 5, 6]).1.os.names.lookup ["zlog", "202311", "14.log"]
        = afterShort.os.names.lookup ["zlog", "202311", "14.log"]
    ∧ (Write (Clock.const nov15) Faults.none afterShort [4, 5, 6]).1.os.contentAt (target afterShort.w nov15)
        = some ((afterShort.os.contentAt (target afterShort.w nov15)).getD [] ++ [4, 5, 6])
    ∧ (((Write (Clock.const nov15) Faults.none afterShort [4, 5, 6]).1.w.fd = none
        ∧ (Write (Clock.const nov15) Faults.none afterShort [4, 5, 6]).1.os.fds
            = afterShort.os.fds.filter (fun e => e.1 ≠ 0))
      ∨ ∃ i', (Write (Clock.const nov15) Faults.none afterShort [4, 5, 6]).1.w.fd = some afterShort.os.nextFd
        ∧ (Write (Clock.const nov15) Faults.none afterShort [4, 5, 6]).1.os.fds
            = (afterShort.os.nextFd, i') :: afterShort.os.fds.filter (fun e => e.1 ≠ 0)) := by
  have h := rollover_reopens_without_rename nov15 Faults.none afterShort [4, 5, 6] 1
    (by decide) rfl (by decide) (by decide)
  exact ⟨by decide, by decide, by decide, by decide, h.1,
    h.2.1 ["zlog", "202311", "14.log"] (by decide), h.2.2.2.1 (by decide),
    h.2.2.2.2 0 (by decide)⟩

set_option maxRecDepth 100000 in
/-- C8, witness: five records of three bytes, one per second from 2023-11-14 22:13:20:
`five_records_two_files` at the writer with threshold 10 on an empty disk. -/
theorem five_records_two_files_witness :
    dateOf (nov14 + 4) = dateOf nov14
    ∧ (writes startTen [(nov14, [1, 2, 3]), (nov14 + 1, [4, 5, 6]), (nov14 + 2, [7, 8, 9]),
        (nov14 + 3, [1, 2, 3]), (nov14 + 4, [4, 5, 6])]).os.totalIn
          (dayDir startTen.w.baseDir nov14) = 15 :=
  ⟨by decide,
    (five_records_two_files startTen.w startTen.os nov14 (nov14 + 1) (nov14 + 2) (nov14 + 3)
      (nov14 + 4) [1, 2, 3] [4, 5, 6] [7, 8, 9] [1, 2, 3] [4, 5, 6] rfl rfl rfl rfl rfl
      (by intro d hd; cases hd) (by decide) (by decide) (by decide) (by decide) (by decide)
      rfl rfl rfl rfl rfl).2.2.2⟩

theorem burstAt_sorted : (burstAt.map (fun c => c.1.dir)).Chain' (· ≤ ·) := by
  simp [burstAt, Clock.const]

theorem burstAt_instants : ∀ c ∈ burstAt, c.1 = Clock.const c.1.dir := by
  intro c hc
  simp only [burstAt, List.mem_cons, List.mem_singleton, List.not_mem_nil, or_false] at hc
  rcases hc with h | h | h <;> subst h <;> rfl

set_option maxRecDepth 100000 in
/-- C10, witness: the burst of three long records, each call reading the clock as one
instant: `sizes_bounded` at an empty disk, for the rotated file. -/
theorem sizes_bounded_witness :
    OS.empty.names = []
    ∧ (∀ d ∈ OS.empty.dirs, d <+: Join [New.baseDir])
    ∧ (∀ c ∈ burstAt, c.1 = Clock.const c.1.dir)
    ∧ (burstAt.map (fun c => c.1.dir)).Chain' (· ≤ ·)
    ∧ (writesAt ⟨New, OS.empty⟩ burstAt).os.names.lookup ["zlog", "202311", "14_1700000000.log"]
        = some 2
    ∧ (((writesAt ⟨New, OS.empty⟩ burstAt).os.data 2).length : Int) ≤ New.maxBytes + maxLen burstAt
    ∧ New.maxBytes < (((writesAt ⟨New, OS.empty⟩ burstAt).os.data 2).length : Int) :=
  ⟨rfl, (by intro d hd; cases hd), burstAt_instants, burstAt_sorted, by decide,
    (sizes_bounded OS.empty burstAt rfl (by intro d hd; cases hd) burstAt_instants burstAt_sorted
      ["zlog", "202311", "14_1700000000.log"] 2 (by decide)).1,
    (sizes_bounded OS.empty burstAt rfl (by intro d hd; cases hd) burstAt_instants burstAt_sorted
      ["zlog", "202311", "14_1700000000.log"] 2 (by decide)).2 "14_1700000000.log"
      (by decide) ⟨"14", 1700000000, by decide⟩⟩

end Zlog
